import Mathlib

/-!
Verification of the record-linkage (matching) engine of `src/image_analyzer.py`.

The Python code is shallowly embedded:
* Python floats are modelled as exact rationals (`ℚ`);
* a Python dict value that may be absent or `None` is an `Option`;
  where the code distinguishes a key that is absent from a key that is
  present with value `None` (`dict.get(k, default)`), the model uses
  `Option (Option _)`: outer `none` = key absent, `some none` = key
  present holding `None`;
* `difflib.SequenceMatcher.ratio()` is modelled by `seqSim` below,
  following the stdlib algorithm (recursive greedy longest matching
  block; no junk heuristics apply because all strings are far below
  the autojunk threshold of 200 characters);
* timestamps are modelled as parsed instants in seconds (`ℚ`);
  `some none` stands for a truthy timestamp that
  `datetime.fromisoformat` fails to parse (the code then swallows the
  error and earns no temporal score).
-/

/-- Truthiness of an optional Python string (`None` and `""` are falsy). -/
def truthyStr : Option String → Bool
  | some s => s != ""
  | none => false

/-- Truthiness of an optional Python number (`None` and `0` are falsy). -/
def truthyQ : Option ℚ → Bool
  | some q => q != 0
  | none => false

/-- Length of the longest common prefix of two character lists. -/
def lcp : List Char → List Char → Nat
  | a :: as, b :: bs => if a = b then lcp as bs + 1 else 0
  | _, _ => 0

/-- Scan of one row of the longest-matching-block search: `ai` is a
suffix of the first list, the second argument counts the position `j`
of the suffix `bj` inside the second list, and the running best block
is replaced only by a strictly larger one. -/
def bestRow (ai : List Char) (i : Nat) : Nat → List Char → Nat × Nat × Nat → Nat × Nat × Nat
  | _, [], best => best
  | j, c :: btl, best =>
    let k := lcp ai (c :: btl)
    bestRow ai i (j + 1) btl (if k > best.2.2 then (i, j, k) else best)

/-- Scan of all rows: the first argument counts the position `i` of
the suffix of the first list. -/
def bestAll (b : List Char) : Nat → List Char → Nat × Nat × Nat → Nat × Nat × Nat
  | _, [], best => best
  | i, c :: atl, best => bestAll b (i + 1) atl (bestRow (c :: atl) i 0 b best)

/-- The longest matching block between two character lists, as
`difflib.SequenceMatcher.find_longest_match` computes it with an empty
junk set: the block `(i, j, k)` of maximal size `k`, ties resolved to
the smallest start `i`, then the smallest start `j` (the stdlib
dynamic program records a block when it is completed, scanning ends in
increasing order and keeping only strictly larger sizes, which yields
exactly this tie-break). -/
def findBestBlock (a b : List Char) : Nat × Nat × Nat :=
  bestAll b 0 a (0, 0, 0)

/-- Total size of all matching blocks of `difflib.SequenceMatcher`:
take the longest matching block and recurse on the parts to its left
and to its right.  The `fuel` argument only drives structural
recursion; `fuel = a.length` always suffices because every recursive
call strictly shrinks the first list. -/
def totalMatchFuel : Nat → List Char → List Char → Nat
  | 0, _, _ => 0
  | fuel + 1, a, b =>
    let r := findBestBlock a b
    if r.2.2 = 0 then 0
    else
      totalMatchFuel fuel (a.take r.1) (b.take r.2.1) + r.2.2 +
        totalMatchFuel fuel (a.drop (r.1 + r.2.2)) (b.drop (r.2.1 + r.2.2))

/-- Total matched characters between two character lists. -/
def totalMatch (a b : List Char) : Nat :=
  totalMatchFuel a.length a b

/-- Model of `difflib.SequenceMatcher(None, x, y).ratio()`:
`2·M / (len(x) + len(y))`, and `1` when both strings are empty. -/
def seqSim (x y : String) : ℚ :=
  let a := x.toList
  let b := y.toList
  if a.length + b.length = 0 then 1
  else (2 * (totalMatch a b : ℚ)) / ((a.length : ℚ) + (b.length : ℚ))

/-- The default registry of known coin symbols
(`ImageAnalyzer._load_known_coins`, `known_coins.json` absent). -/
def known_coins : List String :=
  ["BTC", "ETH", "BNB", "ADA", "DOT", "XRP", "LINK", "LTC", "BCH",
   "UNI", "THETA", "XLM", "VET", "FIL", "TRX", "EOS", "ATOM", "NEO",
   "AVAX", "LUNA", "SOL", "MATIC", "ALGO", "ICP", "EGLD", "RUNE",
   "EPIC", "FLOKI", "HBAR", "COOK", "TAO", "ZORA", "DOGE", "SHIB"]

/-- Python `needle in hay` on strings: `needle` occurs contiguously in `hay`. -/
def strContainsSub (hay needle : String) : Bool :=
  let h := hay.toList
  let n := needle.toList
  (List.range (h.length + 1)).any (fun i => (h.drop i).take n.length == n)

/-- Model of Python's `str.upper()` for the ASCII text the OCR
whitelist produces: uppercase each character. -/
def strUpper (s : String) : String := String.mk (s.toList.map Char.toUpper)

/-- A word character in the sense of the `re` module (ASCII input). -/
def isWordChar (c : Char) : Bool := c.isAlphanum || c = '_'

/-- An ASCII capital letter. -/
def isUpperAZ (c : Char) : Bool := 'A' ≤ c && c ≤ 'Z'

/-- Maximal runs of word characters of a character list (accumulator
holds the current run reversed). -/
def wordRunsAux : List Char → List Char → List (List Char)
  | [], acc => if acc.isEmpty then [] else [acc.reverse]
  | c :: cs, acc =>
    if isWordChar c then wordRunsAux cs (c :: acc)
    else if acc.isEmpty then wordRunsAux cs []
    else acc.reverse :: wordRunsAux cs []

/-- Maximal runs of word characters of a string. -/
def wordRuns (l : List Char) : List (List Char) := wordRunsAux l []

/-- Model of `re.findall(r'\b[A-Z]{2,8}\b', text)`: a word run matches
exactly when it consists of capitals only and has length 2 to 8 (a
longer or mixed run can never satisfy both `\b` boundaries). -/
def findCoinTokens (text : String) : List String :=
  ((wordRuns text.toList).filter
      (fun run => run.all isUpperAZ && 2 ≤ run.length && run.length ≤ 8)).map
    (fun run => String.mk run)

/-- One OCR text region as `detect_coin_name` consumes it. -/
structure TextRegion where
  text : String
  confidence : ℚ
deriving DecidableEq

/-- Model of `ImageAnalyzer.detect_coin_name` applied to one region:
first exact containment of a registry symbol in the uppercased text,
then similarity of each regex token against the registry, keeping the
best confidence seen so far. -/
def detectCoinStep (best : String × ℚ) (region : TextRegion) : String × ℚ :=
  let text := strUpper region.text
  let b1 := known_coins.foldl
    (fun b coin =>
      if strContainsSub text coin ∧ region.confidence > b.2 then
        (coin, region.confidence)
      else b) best
  (findCoinTokens text).foldl
    (fun b tok =>
      if 2 ≤ tok.length then
        known_coins.foldl
          (fun b coin =>
            let sim := seqSim tok coin
            if sim > 8/10 then
              let conf := region.confidence * sim
              if conf > b.2 then (coin, conf) else b
            else b) b
      else b) b1

/-- Model of `ImageAnalyzer.detect_coin_name`. -/
def detect_coin_name (regions : List TextRegion) : String × ℚ :=
  regions.foldl detectCoinStep ("", 0)

/-- The `data` dict of one processed image, as
`match_signals_to_results` and `_calculate_match_score` read it.
`roi` and `status` keep the absent/`None` distinction because the code
reads them with two-argument `dict.get`; for every other field the two
cases are indistinguishable to the code. -/
structure RecData where
  coin : Option String := none
  entry_price : Option ℚ := none
  exit_price : Option ℚ := none
  roi : Option (Option ℚ) := none
  status : Option (Option String) := none
  timestamp : Option (Option ℚ) := none
deriving DecidableEq

/-- Applicability of the coin factor of `_calculate_match_score`:
`signal_data.get('coin') and result_data.get('coin')` is truthy. -/
def coinApp (signal_data result_data : RecData) : Bool :=
  truthyStr signal_data.coin && truthyStr result_data.coin

/-- Score the coin factor earns (lines 444–451). -/
def coinEarnV (signal_data result_data : RecData) : ℚ :=
  if coinApp signal_data result_data then
    if signal_data.coin.getD "" == result_data.coin.getD "" then 6/10
    else 6/10 * seqSim (signal_data.coin.getD "") (result_data.coin.getD "") * (5/10)
  else 0

/-- Weight the coin factor adds to `max_score`. -/
def coinMaxV (signal_data result_data : RecData) : ℚ :=
  if coinApp signal_data result_data then 6/10 else 0

/-- Applicability of the temporal factor: both records hold a truthy
timestamp. -/
def timeApp (signal_data result_data : RecData) : Bool :=
  signal_data.timestamp.isSome && result_data.timestamp.isSome

/-- Score the temporal factor earns (lines 453–469): full weight
within one hour, a linear decay up to one day, nothing beyond; a
parse failure is swallowed and earns nothing. -/
def timeEarnV (signal_data result_data : RecData) : ℚ :=
  match signal_data.timestamp, result_data.timestamp with
  | some (some t1), some (some t2) =>
    let time_diff := |t2 - t1|
    if time_diff ≤ 3600 then 2/10
    else if time_diff ≤ 86400 then 2/10 * (1 - time_diff / 86400)
    else 0
  | _, _ => 0

/-- Weight the temporal factor adds to `max_score`. -/
def timeMaxV (signal_data result_data : RecData) : ℚ :=
  if timeApp signal_data result_data then 2/10 else 0

/-- The result-side price of the price factor:
`result_data.get('entry_price') or result_data.get('exit_price')`. -/
def resultPriceV (result_data : RecData) : Option ℚ :=
  if truthyQ result_data.entry_price then result_data.entry_price
  else result_data.exit_price

/-- Applicability of the price factor: both sides expose a truthy
price. -/
def priceApp (signal_data result_data : RecData) : Bool :=
  truthyQ signal_data.entry_price && truthyQ (resultPriceV result_data)

/-- Score the price factor earns (lines 471–478): the min/max ratio
scaled by the weight, but only when that ratio exceeds 0.8. -/
def priceEarnV (signal_data result_data : RecData) : ℚ :=
  if priceApp signal_data result_data then
    let p1 := signal_data.entry_price.getD 0
    let p2 := (resultPriceV result_data).getD 0
    let price_ratio := min p1 p2 / max p1 p2
    if price_ratio > 8/10 then 2/10 * price_ratio else 0
  else 0

/-- Weight the price factor adds to `max_score`. -/
def priceMaxV (signal_data result_data : RecData) : ℚ :=
  if priceApp signal_data result_data then 2/10 else 0

/-- Model of `ImageAnalyzer._calculate_match_score`.  Each factor
contributes an earned amount to `score` and, when applicable, its
weight to `max_score`, exactly as the Python accumulates them; the
total is normalized by the applicable weight, `0` when nothing was
applicable. -/
def calculate_match_score (signal_data result_data : RecData) : ℚ :=
  let score := coinEarnV signal_data result_data + timeEarnV signal_data result_data +
    priceEarnV signal_data result_data
  let max_score := coinMaxV signal_data result_data + timeMaxV signal_data result_data +
    priceMaxV signal_data result_data
  if max_score > 0 then score / max_score else 0

/-- One element of the `processed_data` list: the enclosing record
built by the callers of `match_signals_to_results`, with its `type`,
`data` and `path` keys (the callers always set all three; a falsy
`data` value is `none`). -/
structure PyRecord where
  type : String
  data : Option RecData
  path : String
deriving DecidableEq

/-- Fallback record used to express Python's in-bounds list indexing
with a total function; every read through it is guarded by an
in-bounds proof. -/
def dfltRec : PyRecord := { type := "", data := none, path := "" }

/-- One trade dict as `match_signals_to_results` builds it.  Every
constructor of the code writes the keys it sets; a key the code never
writes for that shape is `none` here, which is indistinguishable from
a `None` value for every later read the code performs. -/
structure Trade where
  coin : String
  entry_price : Option ℚ := none
  exit_price : Option ℚ := none
  roi : Option ℚ := none
  status : Option String := none
  signal_image : Option String := none
  result_image : Option String := none
  match_confidence : ℚ := 0
  timestamp : Option (Option ℚ) := none
deriving DecidableEq

/-- The matched-trade dict of `match_signals_to_results` (lines
381–391): coin and entry price from the signal, exit price from the
result, `roi` from the result with the signal's as the `dict.get`
default (used only when the result dict has no `roi` key at all),
status from the result defaulting to `"unknown"`. -/
def mkMatchedTrade (signal_data : RecData) (spath : String) (result_data : RecData)
    (rpath : String) (best_score : ℚ) : Trade :=
  { coin := signal_data.coin.getD ""
    entry_price := signal_data.entry_price
    exit_price := result_data.exit_price
    roi := match result_data.roi with
           | some v => v
           | none => signal_data.roi.join
    status := match result_data.status with
              | some v => v
              | none => some "unknown"
    signal_image := some spath
    result_image := some rpath
    match_confidence := best_score
    timestamp := signal_data.timestamp }

/-- The signal-only trade dict (lines 399–408). -/
def mkSignalOnlyTrade (signal_data : RecData) (spath : String) : Trade :=
  { coin := signal_data.coin.getD ""
    entry_price := signal_data.entry_price
    roi := signal_data.roi.join
    status := match signal_data.status with
              | some v => v
              | none => some "pending"
    signal_image := some spath
    result_image := none
    match_confidence := 0
    timestamp := signal_data.timestamp }

/-- The result-only trade dict (lines 416–425). -/
def mkResultOnlyTrade (result_data : RecData) (rpath : String) : Trade :=
  { coin := result_data.coin.getD ""
    exit_price := result_data.exit_price
    roi := result_data.roi.join
    status := match result_data.status with
              | some v => v
              | none => some "unknown"
    signal_image := none
    result_image := some rpath
    match_confidence := 0
    timestamp := result_data.timestamp }

/-- The inner candidate scan of `match_signals_to_results` (lines
362–375): walk the result list in order from position `i`, skip
consumed indices and falsy data, and replace the running best only by
a strictly greater score that also meets the threshold. -/
def scanFrom (tau : ℚ) (signal_data : RecData) (used : List Nat) :
    Nat → List PyRecord → Option Nat × ℚ → Option Nat × ℚ
  | _, [], best => best
  | i, r :: rs, best =>
    let best' :=
      if i ∈ used then best
      else
        match r.data with
        | none => best
        | some result_data =>
          let score := calculate_match_score signal_data result_data
          if score > best.2 ∧ score ≥ tau then (some i, score) else best
    scanFrom tau signal_data used (i + 1) rs best'

/-- The best qualifying candidate for one signal, with the loop's
initial state `best_match = None`, `best_score = 0`. -/
def scanResults (tau : ℚ) (signal_data : RecData) (results : List PyRecord)
    (used : List Nat) : Option (Nat × ℚ) :=
  match scanFrom tau signal_data used 0 results (none, 0) with
  | (some i, sc) => some (i, sc)
  | (none, _) => none

/-- Processing of one signal record (lines 354–409): skip it when its
data or its coin is falsy, otherwise scan the results and append
either a matched trade (consuming the chosen index) or a signal-only
trade. -/
def stepSignal (tau : ℚ) (results : List PyRecord)
    (st : List Nat × List Trade) (s : PyRecord) : List Nat × List Trade :=
  match s.data with
  | none => st
  | some signal_data =>
    if truthyStr signal_data.coin then
      match scanResults tau signal_data results st.1 with
      | some (i, sc) =>
        let rrec := results.getD i dfltRec
        (st.1 ++ [i],
         st.2 ++ [mkMatchedTrade signal_data s.path (rrec.data.getD {}) rrec.path sc])
      | none => (st.1, st.2 ++ [mkSignalOnlyTrade signal_data s.path])
    else st

/-- The full signal loop, starting from no consumed results and no
trades. -/
def runSignals (tau : ℚ) (results signals : List PyRecord) : List Nat × List Trade :=
  signals.foldl (stepSignal tau results) ([], [])

/-- The leftover pass (lines 411–426): every unconsumed result with a
truthy coin is emitted as a result-only trade, in list order. -/
def resultOnlyFrom (used : List Nat) : Nat → List PyRecord → List Trade
  | _, [] => []
  | i, r :: rs =>
    let rest := resultOnlyFrom used (i + 1) rs
    if i ∈ used then rest
    else
      match r.data with
      | none => rest
      | some result_data =>
        if truthyStr result_data.coin then mkResultOnlyTrade result_data r.path :: rest
        else rest

/-- The sort key `x.get('roi', 0)` never sees a missing key (every
trade dict writes `roi`), so it returns the stored value; `none`
stands for a stored `None`, and this numeric key is only consulted
when the list sorts without raising. -/
def roiKey (t : Trade) : ℚ := t.roi.getD 0

/-- Stable descending insertion: the new trade goes after every
already-placed trade whose key is at least as large. -/
def insertRoiDesc (t : Trade) : List Trade → List Trade
  | [] => [t]
  | u :: us => if roiKey u < roiKey t then t :: u :: us else u :: insertRoiDesc t us

/-- The stable descending sort by roi, the unique output of
`list.sort(key=..., reverse=True)` when no comparison raises. -/
def sortRoiDesc (l : List Trade) : List Trade :=
  l.foldl (fun acc t => insertRoiDesc t acc) []

/-- Model of `matched_trades.sort(key=lambda x: x.get('roi', 0),
reverse=True)` on CPython: with at least two elements every element's
key is compared at least once, and any comparison against a stored
`None` raises `TypeError` (modelled as `Except.error`); with fewer
than two elements no comparison happens. -/
def pySortRoi (l : List Trade) : Except Unit (List Trade) :=
  if 2 ≤ l.length ∧ l.any (fun t => t.roi.isNone) then Except.error ()
  else Except.ok (sortRoiDesc l)

/-- The partition `signals = [d for d in processed_data if d['type'] == 'signal']`. -/
def signalsOf (processed_data : List PyRecord) : List PyRecord :=
  processed_data.filter (fun d => d.type == "signal")

/-- The partition `results = [d for d in processed_data if d['type'] == 'result']`. -/
def resultsOf (processed_data : List PyRecord) : List PyRecord :=
  processed_data.filter (fun d => d.type == "result")

/-- The full `matched_trades` list right before the sort: the signal
loop's trades followed by the leftover result-only trades. -/
def allTrades (tau : ℚ) (processed_data : List PyRecord) : List Trade :=
  let st := runSignals tau (resultsOf processed_data) (signalsOf processed_data)
  st.2 ++ resultOnlyFrom st.1 0 (resultsOf processed_data)

/-- The body of `match_signals_to_results` (lines 345–432), up to but
not including the enclosing `try/except`: partition by `type`, run the
signal loop, append the leftover pass, sort.  The only modelled
exception is the sort's `TypeError`. -/
def matchBody (tau : ℚ) (processed_data : List PyRecord) : Except Unit (List Trade) :=
  pySortRoi (allTrades tau processed_data)

/-- Model of `ImageAnalyzer.match_signals_to_results` including its
`try/except Exception: return []` wrapper. -/
def match_signals_to_results (tau : ℚ) (processed_data : List PyRecord) : List Trade :=
  match matchBody tau processed_data with
  | Except.ok ts => ts
  | Except.error _ => []

/-- The `try/except` wrapper seen at the exception level: every
raised exception is an `Exception` subclass and is caught, so the
call as a whole never propagates an exception. -/
def matchSignalsToResultsExc (tau : ℚ) (processed_data : List PyRecord) :
    Except Unit (List Trade) :=
  match matchBody tau processed_data with
  | Except.ok ts => Except.ok ts
  | Except.error _ => Except.ok []

/-- The default `auto_match_threshold` of `_get_default_config`. -/
def defaultThreshold : ℚ := 8/10

/-- The indices the leftover pass emits: unconsumed positions whose
record carries truthy data with a truthy coin, in list order (mirror
of `resultOnlyFrom`). -/
def selIdx (used : List Nat) : Nat → List PyRecord → List Nat
  | _, [] => []
  | i, r :: rs =>
    let rest := selIdx used (i + 1) rs
    if i ∈ used then rest
    else
      match r.data with
      | none => rest
      | some result_data =>
        if truthyStr result_data.coin then i :: rest
        else rest

/-- Dominance of a score over every unconsumed qualifying candidate of
the tail of the result list starting at position `i0`. -/
def candDom (tau : ℚ) (signal_data : RecData) (used : List Nat) (rs : List PyRecord)
    (i0 : Nat) (sc : ℚ) : Prop :=
  ∀ k, k < rs.length → (i0 + k) ∉ used →
    ∀ rd2, (rs.getD k dfltRec).data = some rd2 →
      tau ≤ calculate_match_score signal_data rd2 →
      calculate_match_score signal_data rd2 ≤ sc

/-- Strict dominance of a score over every unconsumed qualifying
candidate that sits strictly before position `i`. -/
def candStrict (tau : ℚ) (signal_data : RecData) (used : List Nat) (rs : List PyRecord)
    (i0 : Nat) (i : Nat) (sc : ℚ) : Prop :=
  ∀ k, k < rs.length → i0 + k < i → (i0 + k) ∉ used →
    ∀ rd2, (rs.getD k dfltRec).data = some rd2 →
      tau ≤ calculate_match_score signal_data rd2 →
      calculate_match_score signal_data rd2 < sc

/-- A well-formed running block: a nonzero block lies inside both
lists. -/
def blockOK (a b : List Char) (p : Nat × Nat × Nat) : Prop :=
  p.2.2 ≠ 0 → p.1 + p.2.2 ≤ a.length ∧ p.2.1 + p.2.2 ≤ b.length

theorem lcp_le_left : ∀ a b : List Char, lcp a b ≤ a.length
  | [], _ => by simp [lcp]
  | _ :: _, [] => by simp [lcp]
  | a :: as, b :: bs => by
    by_cases h : a = b
    · simpa [lcp, h] using lcp_le_left as bs
    · simp [lcp, h]

theorem lcp_le_right : ∀ a b : List Char, lcp a b ≤ b.length
  | [], _ => by simp [lcp]
  | _ :: _, [] => by simp [lcp]
  | a :: as, b :: bs => by
    by_cases h : a = b
    · simpa [lcp, h] using lcp_le_right as bs
    · simp [lcp, h]

theorem lcp_block_ok (a b : List Char) (i j : Nat) (h : lcp (a.drop i) (b.drop j) ≠ 0) :
    i + lcp (a.drop i) (b.drop j) ≤ a.length ∧ j + lcp (a.drop i) (b.drop j) ≤ b.length := by
  have hi : i < a.length := by
    by_contra hge
    have : a.drop i = [] := List.drop_eq_nil_of_le (by omega)
    simp [this, lcp] at h
  have hj : j < b.length := by
    by_contra hge
    have hnil : b.drop j = [] := List.drop_eq_nil_of_le (by omega)
    rcases hd : a.drop i with _ | ⟨c, cs⟩ <;> simp [hd, hnil, lcp] at h
  have h1 := lcp_le_left (a.drop i) (b.drop j)
  have h2 := lcp_le_right (a.drop i) (b.drop j)
  rw [List.length_drop] at h1
  rw [List.length_drop] at h2
  omega

theorem drop_succ_of_drop_cons {α : Type} {l : List α} {n : Nat} {c : α} {t : List α}
    (h : l.drop n = c :: t) : l.drop (n + 1) = t := by
  have : l.drop (n + 1) = (l.drop n).drop 1 := by
    rw [List.drop_drop, Nat.add_comm]
  rw [this, h]
  rfl

theorem bestRow_ok (a b : List Char) :
    ∀ (bj : List Char) (j i : Nat) (best : Nat × Nat × Nat),
      a.drop i ≠ [] → b.drop j = bj → blockOK a b best →
      blockOK a b (bestRow (a.drop i) i j bj best)
  | [], _, _, _, _, _, hb => hb
  | c :: btl, j, i, best, hai, hbj, hb => by
    simp only [bestRow]
    have htl : b.drop (j + 1) = btl := drop_succ_of_drop_cons hbj
    have hstep : blockOK a b
        (if lcp (a.drop i) (c :: btl) > best.2.2 then (i, j, lcp (a.drop i) (c :: btl))
         else best) := by
      by_cases hk : lcp (a.drop i) (c :: btl) > best.2.2
      · rw [if_pos hk]
        intro hne
        have hne2 : lcp (a.drop i) (b.drop j) ≠ 0 := by
          rw [hbj]
          exact hne
        have hbounds := lcp_block_ok a b i j hne2
        rw [hbj] at hbounds
        exact hbounds
      · rw [if_neg hk]
        exact hb
    exact bestRow_ok a b btl (j + 1) i _ hai htl hstep

theorem bestAll_ok (a b : List Char) :
    ∀ (atl : List Char) (i : Nat) (best : Nat × Nat × Nat),
      a.drop i = atl → blockOK a b best → blockOK a b (bestAll b i atl best)
  | [], _, _, _, hb => hb
  | c :: atl, i, best, hai, hb => by
    simp only [bestAll]
    have htl : a.drop (i + 1) = atl := drop_succ_of_drop_cons hai
    have hrow : blockOK a b (bestRow (a.drop i) i 0 b best) :=
      bestRow_ok a b b 0 i best (by rw [hai]; exact List.cons_ne_nil c atl) rfl hb
    rw [hai] at hrow
    exact bestAll_ok a b atl (i + 1) _ htl hrow

theorem findBestBlock_ok (a b : List Char) : blockOK a b (findBestBlock a b) := by
  refine bestAll_ok a b a 0 (0, 0, 0) rfl ?_
  intro h
  simp at h

theorem totalMatchFuel_le_left : ∀ (fuel : Nat) (a b : List Char),
    totalMatchFuel fuel a b ≤ a.length
  | 0, _, _ => Nat.zero_le _
  | fuel + 1, a, b => by
    rw [totalMatchFuel]
    by_cases hz : (findBestBlock a b).2.2 = 0
    · simp [hz]
    · have hok := findBestBlock_ok a b hz
      have h1 := totalMatchFuel_le_left fuel (a.take (findBestBlock a b).1) (b.take (findBestBlock a b).2.1)
      have h2 := totalMatchFuel_le_left fuel (a.drop ((findBestBlock a b).1 + (findBestBlock a b).2.2))
        (b.drop ((findBestBlock a b).2.1 + (findBestBlock a b).2.2))
      rw [List.length_take] at h1
      rw [List.length_drop] at h2
      simp only [hz, if_neg, ite_false]
      omega

theorem totalMatchFuel_le_right : ∀ (fuel : Nat) (a b : List Char),
    totalMatchFuel fuel a b ≤ b.length
  | 0, _, _ => Nat.zero_le _
  | fuel + 1, a, b => by
    rw [totalMatchFuel]
    by_cases hz : (findBestBlock a b).2.2 = 0
    · simp [hz]
    · have hok := findBestBlock_ok a b hz
      have h1 := totalMatchFuel_le_right fuel (a.take (findBestBlock a b).1) (b.take (findBestBlock a b).2.1)
      have h2 := totalMatchFuel_le_right fuel (a.drop ((findBestBlock a b).1 + (findBestBlock a b).2.2))
        (b.drop ((findBestBlock a b).2.1 + (findBestBlock a b).2.2))
      rw [List.length_take] at h1
      rw [List.length_drop] at h2
      simp only [hz, if_neg, ite_false]
      omega

theorem seqSim_nonneg (x y : String) : 0 ≤ seqSim x y := by
  simp only [seqSim]
  split
  · norm_num
  · positivity

theorem seqSim_le_one (x y : String) : seqSim x y ≤ 1 := by
  simp only [seqSim]
  split
  · exact le_refl 1
  · rename_i h
    have hpos : 0 < x.toList.length + y.toList.length := Nat.pos_of_ne_zero h
    have hl := totalMatchFuel_le_left x.toList.length x.toList y.toList
    have hr := totalMatchFuel_le_right x.toList.length x.toList y.toList
    rw [div_le_one (by exact_mod_cast hpos)]
    rw [totalMatch]
    have key : 2 * totalMatchFuel x.toList.length x.toList y.toList ≤
        x.toList.length + y.toList.length := by omega
    exact_mod_cast key

theorem truthyStr_iff (o : Option String) :
    truthyStr o = true ↔ ∃ c, o = some c ∧ c ≠ "" := by
  cases o with
  | none => simp [truthyStr]
  | some s => simp [truthyStr]

theorem truthyQ_iff (o : Option ℚ) :
    truthyQ o = true ↔ ∃ q, o = some q ∧ q ≠ 0 := by
  cases o with
  | none => simp [truthyQ]
  | some q => simp [truthyQ]

theorem coinEarnV_le (signal_data result_data : RecData) :
    coinEarnV signal_data result_data ≤ coinMaxV signal_data result_data := by
  simp only [coinEarnV, coinMaxV]
  split
  · split
    · exact le_refl _
    · have h0 := seqSim_nonneg (signal_data.coin.getD "") (result_data.coin.getD "")
      have h1 := seqSim_le_one (signal_data.coin.getD "") (result_data.coin.getD "")
      nlinarith
  · exact le_refl 0

theorem coinMaxV_nonneg (signal_data result_data : RecData) :
    0 ≤ coinMaxV signal_data result_data := by
  simp only [coinMaxV]
  split <;> norm_num

theorem timeEarnV_le (signal_data result_data : RecData) :
    timeEarnV signal_data result_data ≤ timeMaxV signal_data result_data := by
  rcases hs : signal_data.timestamp with _ | st <;>
    rcases hr : result_data.timestamp with _ | rt <;>
      simp only [timeEarnV, timeMaxV, timeApp, hs, hr, Option.isSome_none,
        Option.isSome_some, Bool.and_self, Bool.and_false, Bool.false_and,
        Bool.true_and, if_true, if_false] <;> try norm_num
  rcases st with _ | t1 <;> rcases rt with _ | t2 <;> try norm_num
  have habs : 0 ≤ |t2 - t1| := abs_nonneg _
  split
  · norm_num
  · split
    · rename_i h1 h2
      nlinarith
    · norm_num

theorem timeMaxV_nonneg (signal_data result_data : RecData) :
    0 ≤ timeMaxV signal_data result_data := by
  simp only [timeMaxV]
  split <;> norm_num

theorem priceEarnV_le (signal_data result_data : RecData)
    (hsp : ∀ p, signal_data.entry_price = some p → 0 ≤ p)
    (hre : ∀ p, result_data.entry_price = some p → 0 ≤ p)
    (hrx : ∀ p, result_data.exit_price = some p → 0 ≤ p) :
    priceEarnV signal_data result_data ≤ priceMaxV signal_data result_data := by
  simp only [priceEarnV, priceMaxV]
  split
  · rename_i happ
    simp only [priceApp, Bool.and_eq_true, truthyQ_iff] at happ
    obtain ⟨⟨p1, hp1, hp1ne⟩, ⟨p2, hp2, hp2ne⟩⟩ := happ
    have hp1pos : 0 < p1 := lt_of_le_of_ne (hsp p1 hp1) (Ne.symm hp1ne)
    have hp2pos : 0 < p2 := by
      have : 0 ≤ p2 := by
        simp only [resultPriceV] at hp2
        split at hp2
        · exact hre p2 hp2
        · exact hrx p2 hp2
      exact lt_of_le_of_ne this (Ne.symm hp2ne)
    rw [hp1, hp2]
    simp only [Option.getD_some]
    have hmaxpos : 0 < max p1 p2 := lt_max_of_lt_left hp1pos
    have hratio : min p1 p2 / max p1 p2 ≤ 1 := by
      rw [div_le_one hmaxpos]
      exact le_trans (min_le_left _ _) (le_max_left _ _)
    split
    · nlinarith
    · norm_num
  · exact le_refl 0

theorem priceMaxV_nonneg (signal_data result_data : RecData) :
    0 ≤ priceMaxV signal_data result_data := by
  simp only [priceMaxV]
  split <;> norm_num

theorem calculate_match_score_le_one (signal_data result_data : RecData)
    (hsp : ∀ p, signal_data.entry_price = some p → 0 ≤ p)
    (hre : ∀ p, result_data.entry_price = some p → 0 ≤ p)
    (hrx : ∀ p, result_data.exit_price = some p → 0 ≤ p) :
    calculate_match_score signal_data result_data ≤ 1 := by
  simp only [calculate_match_score]
  split
  · rename_i hpos
    rw [div_le_one hpos]
    have h1 := coinEarnV_le signal_data result_data
    have h2 := timeEarnV_le signal_data result_data
    have h3 := priceEarnV_le signal_data result_data hsp hre hrx
    linarith
  · norm_num

theorem candDom_cons {tau : ℚ} {signal_data : RecData} {used : List Nat} {r : PyRecord}
    {rs : List PyRecord} {i0 : Nat} {sc : ℚ}
    (hd : i0 ∉ used → ∀ rd2, r.data = some rd2 →
      tau ≤ calculate_match_score signal_data rd2 →
      calculate_match_score signal_data rd2 ≤ sc)
    (ht : candDom tau signal_data used rs (i0 + 1) sc) :
    candDom tau signal_data used (r :: rs) i0 sc := by
  intro k hk hku rd2 hrd2 htau
  cases k with
  | zero =>
    exact hd (by simpa using hku) rd2 (by simpa using hrd2) htau
  | succ k' =>
    refine ht k' (by simpa using hk) ?_ rd2 (by simpa using hrd2) htau
    rw [show i0 + 1 + k' = i0 + (k' + 1) from by omega]
    exact hku

theorem candStrict_cons {tau : ℚ} {signal_data : RecData} {used : List Nat} {r : PyRecord}
    {rs : List PyRecord} {i0 i : Nat} {sc : ℚ}
    (hd : i0 < i → i0 ∉ used → ∀ rd2, r.data = some rd2 →
      tau ≤ calculate_match_score signal_data rd2 →
      calculate_match_score signal_data rd2 < sc)
    (ht : candStrict tau signal_data used rs (i0 + 1) i sc) :
    candStrict tau signal_data used (r :: rs) i0 i sc := by
  intro k hk hki hku rd2 hrd2 htau
  cases k with
  | zero =>
    exact hd (by simpa using hki) (by simpa using hku) rd2 (by simpa using hrd2) htau
  | succ k' =>
    refine ht k' (by simpa using hk) ?_ ?_ rd2 (by simpa using hrd2) htau
    · omega
    · rw [show i0 + 1 + k' = i0 + (k' + 1) from by omega]
      exact hku

theorem scanFrom_spec (tau : ℚ) (signal_data : RecData) (used : List Nat) :
    ∀ (rs : List PyRecord) (i0 : Nat) (b0 : Option Nat) (sc0 : ℚ),
      (scanFrom tau signal_data used i0 rs (b0, sc0) = (b0, sc0) ∧
        candDom tau signal_data used rs i0 sc0) ∨
      (∃ i sc rd, scanFrom tau signal_data used i0 rs (b0, sc0) = (some i, sc) ∧
        i0 ≤ i ∧ i < i0 + rs.length ∧ i ∉ used ∧
        (rs.getD (i - i0) dfltRec).data = some rd ∧
        sc = calculate_match_score signal_data rd ∧ tau ≤ sc ∧ sc0 < sc ∧
        candDom tau signal_data used rs i0 sc ∧
        candStrict tau signal_data used rs i0 i sc)
  | [], i0, b0, sc0 => by
    left
    refine ⟨rfl, ?_⟩
    intro k hk
    simp at hk
  | r :: rs, i0, b0, sc0 => by
    by_cases hu : i0 ∈ used
    · have hstep : scanFrom tau signal_data used i0 (r :: rs) (b0, sc0) =
          scanFrom tau signal_data used (i0 + 1) rs (b0, sc0) := by
        simp only [scanFrom, if_pos hu]
      rcases scanFrom_spec tau signal_data used rs (i0 + 1) b0 sc0 with
        ⟨heq, hdom⟩ | ⟨i, sc, rd, heq, hge, hlt, hnu, hdata, hsc, htau, hgt, hdom, hstrict⟩
      · exact Or.inl ⟨by rw [hstep, heq],
          candDom_cons (fun hnu2 => absurd hu hnu2) hdom⟩
      · refine Or.inr ⟨i, sc, rd, by rw [hstep, heq], by omega,
          by simp only [List.length_cons]; omega, hnu, ?_, hsc, htau, hgt,
          candDom_cons (fun hnu2 => absurd hu hnu2) hdom,
          candStrict_cons (fun _ hnu2 => absurd hu hnu2) hstrict⟩
        rw [show i - i0 = (i - (i0 + 1)) + 1 from by omega, List.getD_cons_succ]
        exact hdata
    · rcases hd : r.data with _ | rd0
      · have hstep : scanFrom tau signal_data used i0 (r :: rs) (b0, sc0) =
            scanFrom tau signal_data used (i0 + 1) rs (b0, sc0) := by
          simp only [scanFrom, if_neg hu, hd]
        rcases scanFrom_spec tau signal_data used rs (i0 + 1) b0 sc0 with
          ⟨heq, hdom⟩ | ⟨i, sc, rd, heq, hge, hlt, hnu, hdata, hsc, htau, hgt, hdom, hstrict⟩
        · refine Or.inl ⟨by rw [hstep, heq],
            candDom_cons (fun _ rd2 hrd2 => ?_) hdom⟩
          rw [hd] at hrd2
          exact absurd hrd2 (by simp)
        · refine Or.inr ⟨i, sc, rd, by rw [hstep, heq], by omega,
            by simp only [List.length_cons]; omega, hnu, ?_, hsc, htau, hgt,
            candDom_cons (fun _ rd2 hrd2 => ?_) hdom,
            candStrict_cons (fun _ _ rd2 hrd2 => ?_) hstrict⟩
          · rw [show i - i0 = (i - (i0 + 1)) + 1 from by omega, List.getD_cons_succ]
            exact hdata
          · rw [hd] at hrd2
            exact absurd hrd2 (by simp)
          · rw [hd] at hrd2
            exact absurd hrd2 (by simp)
      · by_cases hcond : calculate_match_score signal_data rd0 > sc0 ∧
            calculate_match_score signal_data rd0 ≥ tau
        · have hstep : scanFrom tau signal_data used i0 (r :: rs) (b0, sc0) =
              scanFrom tau signal_data used (i0 + 1) rs
                (some i0, calculate_match_score signal_data rd0) := by
            simp only [scanFrom, if_neg hu, hd]
            rw [if_pos hcond]
          rcases scanFrom_spec tau signal_data used rs (i0 + 1) (some i0)
              (calculate_match_score signal_data rd0) with
            ⟨heq, hdom⟩ | ⟨i, sc, rd, heq, hge, hlt, hnu, hdata, hsc, htau, hgt, hdom, hstrict⟩
          · refine Or.inr ⟨i0, calculate_match_score signal_data rd0, rd0,
              by rw [hstep, heq], le_refl i0, by simp only [List.length_cons]; omega, hu,
              by simpa using hd, rfl, hcond.2, hcond.1,
              candDom_cons (fun _ rd2 hrd2 _ => ?_) hdom,
              candStrict_cons (fun hlt2 _ _ _ _ => absurd hlt2 (by omega)) ?_⟩
            · rw [hd] at hrd2
              rw [← Option.some_inj.mp hrd2]
            · intro k hk hklt
              omega
          · refine Or.inr ⟨i, sc, rd, by rw [hstep, heq], by omega,
              by simp only [List.length_cons]; omega, hnu, ?_, hsc, htau,
              lt_trans hcond.1 hgt,
              candDom_cons (fun _ rd2 hrd2 _ => ?_) hdom,
              candStrict_cons (fun _ _ rd2 hrd2 _ => ?_) hstrict⟩
            · rw [show i - i0 = (i - (i0 + 1)) + 1 from by omega, List.getD_cons_succ]
              exact hdata
            · rw [hd] at hrd2
              rw [← Option.some_inj.mp hrd2]
              exact le_of_lt hgt
            · rw [hd] at hrd2
              rw [← Option.some_inj.mp hrd2]
              exact hgt
        · have hstep : scanFrom tau signal_data used i0 (r :: rs) (b0, sc0) =
              scanFrom tau signal_data used (i0 + 1) rs (b0, sc0) := by
            simp only [scanFrom, if_neg hu, hd]
            rw [if_neg hcond]
          have hhead : tau ≤ calculate_match_score signal_data rd0 →
              calculate_match_score signal_data rd0 ≤ sc0 := by
            intro htau2
            by_contra hgt2
            exact hcond ⟨by linarith [lt_of_not_le hgt2], htau2⟩
          rcases scanFrom_spec tau signal_data used rs (i0 + 1) b0 sc0 with
            ⟨heq, hdom⟩ | ⟨i, sc, rd, heq, hge, hlt, hnu, hdata, hsc, htau, hgt, hdom, hstrict⟩
          · refine Or.inl ⟨by rw [hstep, heq],
              candDom_cons (fun _ rd2 hrd2 htau2 => ?_) hdom⟩
            rw [hd] at hrd2
            rw [← Option.some_inj.mp hrd2] at htau2 ⊢
            exact hhead htau2
          · refine Or.inr ⟨i, sc, rd, by rw [hstep, heq], by omega,
              by simp only [List.length_cons]; omega, hnu, ?_, hsc, htau, hgt,
              candDom_cons (fun _ rd2 hrd2 htau2 => ?_) hdom,
              candStrict_cons (fun _ _ rd2 hrd2 htau2 => ?_) hstrict⟩
            · rw [show i - i0 = (i - (i0 + 1)) + 1 from by omega, List.getD_cons_succ]
              exact hdata
            · rw [hd] at hrd2
              rw [← Option.some_inj.mp hrd2] at htau2 ⊢
              exact le_of_lt (lt_of_le_of_lt (hhead htau2) hgt)
            · rw [hd] at hrd2
              rw [← Option.some_inj.mp hrd2] at htau2 ⊢
              exact lt_of_le_of_lt (hhead htau2) hgt

theorem scanResults_spec (tau : ℚ) (signal_data : RecData) (results : List PyRecord)
    (used : List Nat) (i : Nat) (sc : ℚ)
    (h : scanResults tau signal_data results used = some (i, sc)) :
    i < results.length ∧ i ∉ used ∧
    ∃ rd, (results.getD i dfltRec).data = some rd ∧
      sc = calculate_match_score signal_data rd ∧ tau ≤ sc ∧ 0 < sc ∧
      candDom tau signal_data used results 0 sc ∧
      candStrict tau signal_data used results 0 i sc := by
  rcases scanFrom_spec tau signal_data used results 0 none 0 with
    ⟨heq, _⟩ | ⟨i2, sc2, rd, heq, _, hlt, hnu, hdata, hsc, htau, hgt, hdom, hstrict⟩
  · rw [scanResults, heq] at h
    exact absurd h (by simp)
  · rw [scanResults, heq] at h
    have hii : i2 = i ∧ sc2 = sc := by
      constructor <;> [exact congrArg Prod.fst (Option.some_inj.mp h);
        exact congrArg Prod.snd (Option.some_inj.mp h)]
    obtain ⟨hi2, hsc2⟩ := hii
    subst hi2
    subst hsc2
    refine ⟨by simpa using hlt, hnu, rd, by simpa using hdata, hsc, htau, hgt, hdom, hstrict⟩

theorem stepSignal_inv (tau : ℚ) (results : List PyRecord) (st : List Nat × List Trade)
    (s : PyRecord) (h1 : st.1.Nodup) (h2 : ∀ i ∈ st.1, i < results.length)
    (h3 : st.2.filterMap (fun t => t.result_image) =
      st.1.map (fun i => (results.getD i dfltRec).path)) :
    (stepSignal tau results st s).1.Nodup ∧
    (∀ i ∈ (stepSignal tau results st s).1, i < results.length) ∧
    (stepSignal tau results st s).2.filterMap (fun t => t.result_image) =
      (stepSignal tau results st s).1.map (fun i => (results.getD i dfltRec).path) := by
  rcases hd : s.data with _ | sd
  · simp only [stepSignal, hd]
    exact ⟨h1, h2, h3⟩
  · simp only [stepSignal, hd]
    by_cases hc : truthyStr sd.coin = true
    · rw [if_pos hc]
      rcases hscan : scanResults tau sd results st.1 with _ | ⟨i, sc⟩
      · refine ⟨h1, h2, ?_⟩
        rw [List.filterMap_append, h3]
        simp [mkSignalOnlyTrade]
      · obtain ⟨hilt, hinu, -⟩ := scanResults_spec tau sd results st.1 i sc hscan
        refine ⟨?_, ?_, ?_⟩
        · rw [List.nodup_append]
          refine ⟨h1, List.nodup_singleton i, ?_⟩
          intro a ha hb
          simp only [List.mem_singleton] at hb
          subst hb
          exact hinu ha
        · intro j hj
          rw [List.mem_append] at hj
          rcases hj with hj | hj
          · exact h2 j hj
          · simp only [List.mem_singleton] at hj
            subst hj
            exact hilt
        · rw [List.filterMap_append, List.map_append, h3]
          simp [mkMatchedTrade]
    · rw [if_neg hc]
      exact ⟨h1, h2, h3⟩

theorem foldSignals_inv (tau : ℚ) (results : List PyRecord) :
    ∀ (signals : List PyRecord) (st : List Nat × List Trade),
      st.1.Nodup → (∀ i ∈ st.1, i < results.length) →
      st.2.filterMap (fun t => t.result_image) =
        st.1.map (fun i => (results.getD i dfltRec).path) →
      (signals.foldl (stepSignal tau results) st).1.Nodup ∧
      (∀ i ∈ (signals.foldl (stepSignal tau results) st).1, i < results.length) ∧
      (signals.foldl (stepSignal tau results) st).2.filterMap (fun t => t.result_image) =
        (signals.foldl (stepSignal tau results) st).1.map
          (fun i => (results.getD i dfltRec).path)
  | [], st, h1, h2, h3 => ⟨h1, h2, h3⟩
  | s :: signals, st, h1, h2, h3 => by
    rw [List.foldl_cons]
    obtain ⟨g1, g2, g3⟩ := stepSignal_inv tau results st s h1 h2 h3
    exact foldSignals_inv tau results signals _ g1 g2 g3

theorem runSignals_inv (tau : ℚ) (results signals : List PyRecord) :
    (runSignals tau results signals).1.Nodup ∧
    (∀ i ∈ (runSignals tau results signals).1, i < results.length) ∧
    (runSignals tau results signals).2.filterMap (fun t => t.result_image) =
      (runSignals tau results signals).1.map (fun i => (results.getD i dfltRec).path) := by
  refine foldSignals_inv tau results signals ([], []) ?_ ?_ ?_ <;> simp

theorem stepSignal_shape (tau : ℚ) (results : List PyRecord) (st : List Nat × List Trade)
    (s : PyRecord) (t : Trade) (h : t ∈ (stepSignal tau results st s).2) :
    t ∈ st.2 ∨ ∃ sd, s.data = some sd ∧ truthyStr sd.coin = true ∧
      ((∃ used2 i sc, scanResults tau sd results used2 = some (i, sc) ∧
          t = mkMatchedTrade sd s.path ((results.getD i dfltRec).data.getD {})
            (results.getD i dfltRec).path sc) ∨
        t = mkSignalOnlyTrade sd s.path) := by
  rcases hd : s.data with _ | sd
  · simp only [stepSignal, hd] at h
    exact Or.inl h
  · simp only [stepSignal, hd] at h
    by_cases hc : truthyStr sd.coin = true
    · rw [if_pos hc] at h
      rcases hscan : scanResults tau sd results st.1 with _ | ⟨i, sc⟩
      · rw [hscan] at h
        simp only [List.mem_append, List.mem_singleton] at h
        rcases h with h | h
        · exact Or.inl h
        · exact Or.inr ⟨sd, rfl, hc, Or.inr h⟩
      · rw [hscan] at h
        simp only [List.mem_append, List.mem_singleton] at h
        rcases h with h | h
        · exact Or.inl h
        · exact Or.inr ⟨sd, rfl, hc, Or.inl ⟨st.1, i, sc, hscan, h⟩⟩
    · rw [if_neg hc] at h
      exact Or.inl h

theorem foldSignals_shape (tau : ℚ) (results : List PyRecord) :
    ∀ (signals : List PyRecord) (st : List Nat × List Trade) (t : Trade),
      t ∈ (signals.foldl (stepSignal tau results) st).2 →
      t ∈ st.2 ∨ ∃ s ∈ signals, ∃ sd, s.data = some sd ∧ truthyStr sd.coin = true ∧
        ((∃ used2 i sc, scanResults tau sd results used2 = some (i, sc) ∧
            t = mkMatchedTrade sd s.path ((results.getD i dfltRec).data.getD {})
              (results.getD i dfltRec).path sc) ∨
          t = mkSignalOnlyTrade sd s.path)
  | [], st, t, h => Or.inl h
  | s :: signals, st, t, h => by
    rw [List.foldl_cons] at h
    rcases foldSignals_shape tau results signals _ t h with h2 | ⟨s2, hs2, rest⟩
    · rcases stepSignal_shape tau results st s t h2 with h3 | ⟨sd, rest⟩
      · exact Or.inl h3
      · exact Or.inr ⟨s, List.mem_cons_self s signals, sd, rest⟩
    · exact Or.inr ⟨s2, List.mem_cons_of_mem s hs2, rest⟩

theorem resultOnlyFrom_shape (used : List Nat) :
    ∀ (rs : List PyRecord) (i0 : Nat) (t : Trade), t ∈ resultOnlyFrom used i0 rs →
      ∃ k rd, k < rs.length ∧ (i0 + k) ∉ used ∧
        (rs.getD k dfltRec).data = some rd ∧ truthyStr rd.coin = true ∧
        t = mkResultOnlyTrade rd (rs.getD k dfltRec).path
  | [], _, t, h => by simp [resultOnlyFrom] at h
  | r :: rs, i0, t, h => by
    rw [resultOnlyFrom] at h
    have htail : t ∈ resultOnlyFrom used (i0 + 1) rs →
        ∃ k rd, k < (r :: rs).length ∧ (i0 + k) ∉ used ∧
          ((r :: rs).getD k dfltRec).data = some rd ∧ truthyStr rd.coin = true ∧
          t = mkResultOnlyTrade rd ((r :: rs).getD k dfltRec).path := by
      intro h2
      obtain ⟨k, rd, hk, hku, hdata, hcoin, ht⟩ := resultOnlyFrom_shape used rs (i0 + 1) t h2
      refine ⟨k + 1, rd, by simpa using hk, ?_, by simpa using hdata, hcoin,
        by simpa using ht⟩
      rw [show i0 + (k + 1) = i0 + 1 + k from by omega]
      exact hku
    by_cases hu : i0 ∈ used
    · rw [if_pos hu] at h
      exact htail h
    · rw [if_neg hu] at h
      rcases hd : r.data with _ | rd0
      · rw [hd] at h
        exact htail h
      · simp only [hd] at h
        by_cases hc : truthyStr rd0.coin = true
        · rw [if_pos hc] at h
          rcases List.mem_cons.mp h with h2 | h2
          · exact ⟨0, rd0, by simp, by simpa using hu, by simpa using hd, hc, by simpa using h2⟩
          · exact htail h2
        · rw [if_neg hc] at h
          exact htail h

theorem resultOnlyFrom_refs (used : List Nat) :
    ∀ (rs : List PyRecord) (i0 : Nat) (results : List PyRecord),
      (∀ k, rs.getD k dfltRec = results.getD (i0 + k) dfltRec) →
      (resultOnlyFrom used i0 rs).filterMap (fun t => t.result_image) =
        (selIdx used i0 rs).map (fun i => (results.getD i dfltRec).path)
  | [], _, _, _ => by simp [resultOnlyFrom, selIdx]
  | r :: rs, i0, results, hagree => by
    have hr : r = results.getD i0 dfltRec := by
      simpa using hagree 0
    have htail : ∀ k, rs.getD k dfltRec = results.getD (i0 + 1 + k) dfltRec := by
      intro k
      have h1 := hagree (k + 1)
      rw [List.getD_cons_succ] at h1
      rw [h1, show i0 + (k + 1) = i0 + 1 + k from by omega]
    simp only [resultOnlyFrom, selIdx]
    by_cases hu : i0 ∈ used
    · simp only [if_pos hu]
      exact resultOnlyFrom_refs used rs (i0 + 1) results htail
    · simp only [if_neg hu]
      rcases hd : r.data with _ | rd0
      · simp only [hd]
        exact resultOnlyFrom_refs used rs (i0 + 1) results htail
      · simp only [hd]
        by_cases hc : truthyStr rd0.coin = true
        · simp only [if_pos hc, List.filterMap_cons, List.map_cons]
          rw [resultOnlyFrom_refs used rs (i0 + 1) results htail, ← hr]
          simp [mkResultOnlyTrade]
        · simp only [if_neg hc]
          exact resultOnlyFrom_refs used rs (i0 + 1) results htail

theorem selIdx_mem (used : List Nat) :
    ∀ (rs : List PyRecord) (i0 : Nat) (i : Nat), i ∈ selIdx used i0 rs →
      i0 ≤ i ∧ i < i0 + rs.length ∧ i ∉ used
  | [], _, _, h => by simp [selIdx] at h
  | r :: rs, i0, i, h => by
    have htail : i ∈ selIdx used (i0 + 1) rs →
        i0 ≤ i ∧ i < i0 + (r :: rs).length ∧ i ∉ used := by
      intro h2
      obtain ⟨ha, hb, hc⟩ := selIdx_mem used rs (i0 + 1) i h2
      refine ⟨by omega, by simp only [List.length_cons]; omega, hc⟩
    simp only [selIdx] at h
    by_cases hu : i0 ∈ used
    · rw [if_pos hu] at h
      exact htail h
    · rw [if_neg hu] at h
      rcases hd : r.data with _ | rd0
      · rw [hd] at h
        exact htail h
      · simp only [hd] at h
        by_cases hc : truthyStr rd0.coin = true
        · rw [if_pos hc] at h
          rcases List.mem_cons.mp h with h2 | h2
          · subst h2
            exact ⟨le_refl i, by simp, hu⟩
          · exact htail h2
        · rw [if_neg hc] at h
          exact htail h

theorem selIdx_pairwise (used : List Nat) :
    ∀ (rs : List PyRecord) (i0 : Nat), (selIdx used i0 rs).Pairwise (· < ·)
  | [], _ => by simp [selIdx]
  | r :: rs, i0 => by
    have htail := selIdx_pairwise used rs (i0 + 1)
    simp only [selIdx]
    by_cases hu : i0 ∈ used
    · rw [if_pos hu]
      exact htail
    · rw [if_neg hu]
      rcases hd : r.data with _ | rd0
      · exact htail
      · by_cases hc : truthyStr rd0.coin = true
        · simp only [if_pos hc]
          refine List.Pairwise.cons ?_ htail
          intro j hj
          have := (selIdx_mem used rs (i0 + 1) j hj).1
          omega
        · simp only [if_neg hc]
          exact htail

theorem selIdx_nodup (used : List Nat) (rs : List PyRecord) (i0 : Nat) :
    (selIdx used i0 rs).Nodup :=
  (selIdx_pairwise used rs i0).imp (fun h => Nat.ne_of_lt h)

theorem insertRoiDesc_perm (t : Trade) : ∀ l : List Trade, (insertRoiDesc t l).Perm (t :: l)
  | [] => List.Perm.refl _
  | u :: us => by
    rw [insertRoiDesc]
    split
    · exact List.Perm.refl _
    · exact ((insertRoiDesc_perm t us).cons u).trans (List.Perm.swap t u us)

theorem foldl_insert_perm : ∀ (l acc : List Trade),
    (l.foldl (fun acc t => insertRoiDesc t acc) acc).Perm (l ++ acc)
  | [], acc => by simp
  | t :: l, acc => by
    rw [List.foldl_cons]
    refine (foldl_insert_perm l (insertRoiDesc t acc)).trans ?_
    refine (List.Perm.append_left l (insertRoiDesc_perm t acc)).trans ?_
    exact List.perm_middle

theorem sortRoiDesc_perm (l : List Trade) : (sortRoiDesc l).Perm l := by
  have h := foldl_insert_perm l []
  simpa [sortRoiDesc] using h

theorem allTrades_eq (tau : ℚ) (processed_data : List PyRecord) :
    allTrades tau processed_data =
      (runSignals tau (resultsOf processed_data) (signalsOf processed_data)).2 ++
        resultOnlyFrom (runSignals tau (resultsOf processed_data) (signalsOf processed_data)).1
          0 (resultsOf processed_data) := rfl

theorem mem_match_output (tau : ℚ) (processed_data : List PyRecord) (t : Trade)
    (h : t ∈ match_signals_to_results tau processed_data) :
    t ∈ allTrades tau processed_data := by
  rw [match_signals_to_results, matchBody, pySortRoi] at h
  by_cases hc : 2 ≤ (allTrades tau processed_data).length ∧
      (allTrades tau processed_data).any (fun t => t.roi.isNone)
  · rw [if_pos hc] at h
    exact absurd h (List.not_mem_nil t)
  · rw [if_neg hc] at h
    exact (sortRoiDesc_perm (allTrades tau processed_data)).mem_iff.mp h

theorem pathAt_inj (results : List PyRecord)
    (h : (results.map (fun r => r.path)).Nodup) :
    ∀ i j, i < results.length → j < results.length →
      (results.getD i dfltRec).path = (results.getD j dfltRec).path → i = j := by
  intro i j hi hj heq
  rw [List.getD_eq_getElem results dfltRec hi, List.getD_eq_getElem results dfltRec hj] at heq
  have hi2 : i < (results.map (fun r => r.path)).length := by simpa using hi
  have hj2 : j < (results.map (fun r => r.path)).length := by simpa using hj
  have h2 : (results.map (fun r => r.path))[i] =
      (results.map (fun r => r.path))[j] := by
    simpa [List.getElem_map] using heq
  exact (h.getElem_inj_iff).mp h2

theorem allTrades_refs_nodup (tau : ℚ) (processed_data : List PyRecord)
    (h : ((resultsOf processed_data).map (fun r => r.path)).Nodup) :
    ((allTrades tau processed_data).filterMap (fun t => t.result_image)).Nodup := by
  obtain ⟨hnd, hbound, hrefs⟩ :=
    runSignals_inv tau (resultsOf processed_data) (signalsOf processed_data)
  have hrefs2 := resultOnlyFrom_refs
    (runSignals tau (resultsOf processed_data) (signalsOf processed_data)).1
    (resultsOf processed_data) 0 (resultsOf processed_data) (fun k => by simp)
  rw [allTrades_eq, List.filterMap_append, hrefs, hrefs2, ← List.map_append]
  refine List.Nodup.map_on ?_ ?_
  · intro x hx y hy hxy
    rw [List.mem_append] at hx hy
    have hxlt : x < (resultsOf processed_data).length := by
      rcases hx with hx | hx
      · exact hbound x hx
      · have := (selIdx_mem _ _ _ x hx).2.1
        simpa using this
    have hylt : y < (resultsOf processed_data).length := by
      rcases hy with hy | hy
      · exact hbound y hy
      · have := (selIdx_mem _ _ _ y hy).2.1
        simpa using this
    exact pathAt_inj (resultsOf processed_data) h x y hxlt hylt hxy
  · rw [List.nodup_append]
    refine ⟨hnd, selIdx_nodup _ _ _, ?_⟩
    intro a ha hsel
    exact (selIdx_mem _ _ _ a hsel).2.2 ha

theorem foldl_fixed {α β : Type} (step : β → α → β) :
    ∀ (l : List α) (b : β), (∀ x ∈ l, step b x = b) → l.foldl step b = b
  | [], _, _ => rfl
  | x :: l, b, h => by
    rw [List.foldl_cons, h x (List.mem_cons_self x l)]
    exact foldl_fixed step l b (fun y hy => h y (List.mem_cons_of_mem x hy))

theorem seqSim_le_threshold (x y : String) (hne : ¬(x.toList.length + y.toList.length = 0))
    (h : 20 * totalMatch x.toList y.toList ≤ 8 * (x.toList.length + y.toList.length)) :
    seqSim x y ≤ 8/10 := by
  simp only [seqSim, if_neg hne]
  rw [div_le_div_iff₀ (by exact_mod_cast Nat.pos_of_ne_zero hne) (by norm_num)]
  have hq : (20 * totalMatch x.toList y.toList : ℚ) ≤
      8 * ((x.toList.length : ℚ) + (y.toList.length : ℚ)) := by
    exact_mod_cast h
  linarith

theorem detectCoinStep_fixed (region : TextRegion)
    (hnc : ∀ coin ∈ known_coins, strContainsSub (strUpper region.text) coin = false)
    (hsim : ∀ tok ∈ findCoinTokens (strUpper region.text), ∀ coin ∈ known_coins,
      seqSim tok coin ≤ 8/10)
    (best : String × ℚ) : detectCoinStep best region = best := by
  simp only [detectCoinStep]
  have h1 : known_coins.foldl
      (fun b coin =>
        if strContainsSub (strUpper region.text) coin ∧ region.confidence > b.2 then
          (coin, region.confidence)
        else b) best = best := by
    refine foldl_fixed _ known_coins best (fun coin hc => ?_)
    rw [hnc coin hc]
    simp
  rw [h1]
  refine foldl_fixed _ (findCoinTokens (strUpper region.text)) best (fun tok htok => ?_)
  by_cases hlen : 2 ≤ tok.length
  · rw [if_pos hlen]
    refine foldl_fixed _ known_coins best (fun coin hc => ?_)
    have hle := hsim tok htok coin hc
    rw [if_neg (not_lt.mpr hle)]
  · rw [if_neg hlen]

theorem detect_coin_name_rejects (regions : List TextRegion)
    (hnc : ∀ region ∈ regions, ∀ coin ∈ known_coins,
      strContainsSub (strUpper region.text) coin = false)
    (hsim : ∀ region ∈ regions, ∀ tok ∈ findCoinTokens (strUpper region.text),
      ∀ coin ∈ known_coins, seqSim tok coin ≤ 8/10) :
    detect_coin_name regions = ("", 0) := by
  rw [detect_coin_name]
  exact foldl_fixed detectCoinStep regions ("", 0)
    (fun region hreg => detectCoinStep_fixed region (hnc region hreg) (hsim region hreg) ("", 0))

theorem coinFold_pick (tok c : String) (q : ℚ) (hq : 0 < q)
    (pre post : List String)
    (hpre : ∀ coin ∈ pre, seqSim tok coin ≤ 8/10)
    (hpost : ∀ coin ∈ post, seqSim tok coin ≤ 8/10)
    (hsim : 8/10 < seqSim tok c) :
    (pre ++ c :: post).foldl
      (fun b coin =>
        if seqSim tok coin > 8/10 then
          if q * seqSim tok coin > b.2 then (coin, q * seqSim tok coin) else b
        else b) ("", 0) = (c, q * seqSim tok c) := by
  rw [List.foldl_append]
  have h1 : pre.foldl
      (fun b coin =>
        if seqSim tok coin > 8/10 then
          if q * seqSim tok coin > b.2 then (coin, q * seqSim tok coin) else b
        else b) ("", 0) = (("", 0) : String × ℚ) := by
    refine foldl_fixed _ pre ("", 0) (fun coin hco => ?_)
    rw [if_neg (not_lt.mpr (hpre coin hco))]
  have hconf : ((("", 0) : String × ℚ)).2 < q * seqSim tok c := by
    show (0 : ℚ) < q * seqSim tok c
    exact mul_pos hq (lt_trans (by norm_num) hsim)
  rw [h1, List.foldl_cons, if_pos hsim, if_pos hconf]
  refine foldl_fixed _ post (c, q * seqSim tok c) (fun coin hco => ?_)
  rw [if_neg (not_lt.mpr (hpost coin hco))]

/-- C1: the spec claims that identical canonical coin, a time gap of at
most one hour and a price ratio above 0.8 force a score of exactly 1.0.
The code earns only `0.2 × ratio` from the price factor, so this pair —
same coin `"BTC"`, identical timestamps and price ratio 0.9 — scores
49/50, not 1. -/
theorem C1_counterexample :
    calculate_match_score
        { coin := some "BTC", entry_price := some 1, timestamp := some (some 0) }
        { coin := some "BTC", entry_price := some (9/10), timestamp := some (some 0) } = 49/50 ∧
    calculate_match_score
        { coin := some "BTC", entry_price := some 1, timestamp := some (some 0) }
        { coin := some "BTC", entry_price := some (9/10), timestamp := some (some 0) } ≠ 1 ∧
    |(0 : ℚ) - 0| ≤ 3600 ∧ min (1 : ℚ) (9/10) / max (1 : ℚ) (9/10) > 8/10 := by
  have hval : calculate_match_score
      { coin := some "BTC", entry_price := some 1, timestamp := some (some 0) }
      { coin := some "BTC", entry_price := some (9/10), timestamp := some (some 0) } = 49/50 := by
    simp [calculate_match_score, coinEarnV, coinMaxV, coinApp, timeEarnV, timeMaxV, timeApp,
      priceEarnV, priceMaxV, priceApp, resultPriceV, truthyStr, truthyQ]
    norm_num
  refine ⟨hval, by rw [hval]; norm_num, by norm_num, by norm_num⟩

/-- C1 (amended): when both records carry the same non-empty canonical
coin, both timestamps parse and lie at most one hour apart, and both
sides expose a nonzero price whose min/max ratio exceeds 0.8, the
match score is `0.8 + 0.2 × ratio` — which equals 1.0 exactly when the
two prices are equal, and is strictly below 1.0 otherwise. -/
theorem C1_score_formula (signal_data result_data : RecData) (c : String) (t1 t2 p q : ℚ)
    (hcne : c ≠ "") (hsc : signal_data.coin = some c) (hrc : result_data.coin = some c)
    (hst : signal_data.timestamp = some (some t1)) (hrt : result_data.timestamp = some (some t2))
    (hdt : |t2 - t1| ≤ 3600)
    (hsp : signal_data.entry_price = some p) (hp : p ≠ 0)
    (hrp : resultPriceV result_data = some q) (hq : q ≠ 0)
    (hratio : min p q / max p q > 8/10) :
    calculate_match_score signal_data result_data = 8/10 + 2/10 * (min p q / max p q) := by
  have hca : coinApp signal_data result_data = true := by
    simp [coinApp, truthyStr, hsc, hrc, hcne]
  have hce : coinEarnV signal_data result_data = 6/10 := by
    rw [coinEarnV, if_pos hca, hsc, hrc]
    simp
  have hcm : coinMaxV signal_data result_data = 6/10 := by
    rw [coinMaxV, if_pos hca]
  have hte : timeEarnV signal_data result_data = 2/10 := by
    simp only [timeEarnV, hst, hrt]
    rw [if_pos hdt]
  have hta : timeApp signal_data result_data = true := by
    simp [timeApp, hst, hrt]
  have htm : timeMaxV signal_data result_data = 2/10 := by
    rw [timeMaxV, if_pos hta]
  have hpa : priceApp signal_data result_data = true := by
    simp [priceApp, truthyQ, hsp, hp, hrp, hq]
  have hpe : priceEarnV signal_data result_data = 2/10 * (min p q / max p q) := by
    rw [priceEarnV, if_pos hpa, hsp, hrp]
    simp only [Option.getD_some]
    rw [if_pos hratio]
  have hpm : priceMaxV signal_data result_data = 2/10 := by
    rw [priceMaxV, if_pos hpa]
  simp only [calculate_match_score]
  rw [hce, hcm, hte, htm, hpe, hpm]
  rw [if_pos (by norm_num : (6/10 : ℚ) + 2/10 + 2/10 > 0)]
  have hone : (6/10 : ℚ) + 2/10 + 2/10 = 1 := by norm_num
  rw [hone, div_one]
  ring

/-- Witness for the amended C1: coin `"LTC"`, timestamps one minute
apart, prices 4 and 18/5 (ratio 9/10), score 49/50. -/
theorem C1_score_formula_witness :
    ("LTC" : String) ≠ "" ∧
    (({ coin := some "LTC", entry_price := some 4, timestamp := some (some 50) } : RecData).coin =
      some "LTC") ∧
    (({ coin := some "LTC", entry_price := some (18/5), timestamp := some (some 110) } : RecData).coin =
      some "LTC") ∧
    |(110 : ℚ) - 50| ≤ 3600 ∧ (4 : ℚ) ≠ 0 ∧ (18/5 : ℚ) ≠ 0 ∧
    resultPriceV { coin := some "LTC", entry_price := some (18/5), timestamp := some (some 110) } =
      some (18/5) ∧
    min (4 : ℚ) (18/5) / max (4 : ℚ) (18/5) > 8/10 ∧
    calculate_match_score
        { coin := some "LTC", entry_price := some 4, timestamp := some (some 50) }
        { coin := some "LTC", entry_price := some (18/5), timestamp := some (some 110) } =
      8/10 + 2/10 * (min (4 : ℚ) (18/5) / max (4 : ℚ) (18/5)) :=
  ⟨by decide, rfl, rfl, by norm_num, by norm_num, by norm_num,
   by simp [resultPriceV, truthyQ],
   by norm_num,
   C1_score_formula _ _ "LTC" 50 110 4 (18/5) (by decide) rfl rfl rfl rfl (by norm_num)
     rfl (by norm_num) (by simp [resultPriceV, truthyQ]) (by norm_num) (by norm_num)⟩

/-- C3: with two emitted signal-only trades where one has a numeric roi
and the other a `None` roi, CPython's sort compares `None` with a
float and raises `TypeError`; the blanket `except Exception` then makes
`match_signals_to_results` return `[]`, discarding both trades instead
of returning them sorted with the missing roi treated as 0. -/
theorem C3_mixed_roi_returns_empty :
    allTrades defaultThreshold
        [{ type := "signal", path := "s1",
           data := some { coin := some "BTC", entry_price := some 1, roi := some (some 5) } },
         { type := "signal", path := "s2",
           data := some { coin := some "ETH", entry_price := some 2, roi := some none } }] =
      [{ coin := "BTC", entry_price := some 1, roi := some 5, status := some "pending",
         signal_image := some "s1", match_confidence := 0 },
       { coin := "ETH", entry_price := some 2, roi := none, status := some "pending",
         signal_image := some "s2", match_confidence := 0 }] ∧
    matchBody defaultThreshold
        [{ type := "signal", path := "s1",
           data := some { coin := some "BTC", entry_price := some 1, roi := some (some 5) } },
         { type := "signal", path := "s2",
           data := some { coin := some "ETH", entry_price := some 2, roi := some none } }] =
      Except.error () ∧
    match_signals_to_results defaultThreshold
        [{ type := "signal", path := "s1",
           data := some { coin := some "BTC", entry_price := some 1, roi := some (some 5) } },
         { type := "signal", path := "s2",
           data := some { coin := some "ETH", entry_price := some 2, roi := some none } }] =
      [] := by
  refine ⟨?_, ?_, ?_⟩ <;>
    simp [match_signals_to_results, matchBody, allTrades, signalsOf, resultsOf, runSignals,
      stepSignal, scanResults, scanFrom, resultOnlyFrom, pySortRoi, mkSignalOnlyTrade,
      truthyStr, defaultThreshold]

/-- C6: the `try/except Exception: return []` wrapper catches every
exception the body can raise (here the sort's `TypeError`), so the
call never propagates an exception and always returns a list. -/
theorem C6_never_raises (tau : ℚ) (processed_data : List PyRecord) :
    ∃ trades : List Trade,
      matchSignalsToResultsExc tau processed_data = Except.ok trades ∧
      match_signals_to_results tau processed_data = trades := by
  cases hmb : matchBody tau processed_data with
  | error e =>
    exact ⟨[], by simp [matchSignalsToResultsExc, hmb], by simp [match_signals_to_results, hmb]⟩
  | ok ts =>
    exact ⟨ts, by simp [matchSignalsToResultsExc, hmb], by simp [match_signals_to_results, hmb]⟩

/-- C4: no two trades emitted by `match_signals_to_results` reference
the same result record: the `used_results` set removes a consumed
result from every later signal's scan and from the leftover pass, so
when the result records' paths are distinct, the emitted `result_image`
references are distinct as well. -/
theorem C4_result_exclusivity (tau : ℚ) (processed_data : List PyRecord)
    (h : ((resultsOf processed_data).map (fun r => r.path)).Nodup) :
    ((match_signals_to_results tau processed_data).filterMap
      (fun t => t.result_image)).Nodup := by
  rw [match_signals_to_results, matchBody, pySortRoi]
  by_cases hc : 2 ≤ (allTrades tau processed_data).length ∧
      (allTrades tau processed_data).any (fun t => t.roi.isNone)
  · rw [if_pos hc]
    simp
  · rw [if_neg hc]
    exact ((sortRoiDesc_perm (allTrades tau processed_data)).filterMap
      (fun t => t.result_image)).nodup_iff.mpr (allTrades_refs_nodup tau processed_data h)

/-- Witness for C4: two signals and two identical results with
distinct paths; the emitted references are pairwise distinct. -/
theorem C4_result_exclusivity_witness :
    ((resultsOf
        [{ type := "signal", path := "s1",
           data := some { coin := some "BTC", entry_price := some 1,
                          roi := some (some 1), timestamp := some (some 0) } },
         { type := "signal", path := "s2",
           data := some { coin := some "BTC", entry_price := some 1,
                          roi := some (some 1), timestamp := some (some 0) } },
         { type := "result", path := "r1",
           data := some { coin := some "BTC", entry_price := some 1,
                          roi := some (some 2), timestamp := some (some 0) } },
         { type := "result", path := "r2",
           data := some { coin := some "BTC", entry_price := some 1,
                          roi := some (some 2), timestamp := some (some 0) } }]).map
      (fun r => r.path)).Nodup ∧
    ((match_signals_to_results (8/10)
        [{ type := "signal", path := "s1",
           data := some { coin := some "BTC", entry_price := some 1,
                          roi := some (some 1), timestamp := some (some 0) } },
         { type := "signal", path := "s2",
           data := some { coin := some "BTC", entry_price := some 1,
                          roi := some (some 1), timestamp := some (some 0) } },
         { type := "result", path := "r1",
           data := some { coin := some "BTC", entry_price := some 1,
                          roi := some (some 2), timestamp := some (some 0) } },
         { type := "result", path := "r2",
           data := some { coin := some "BTC", entry_price := some 1,
                          roi := some (some 2), timestamp := some (some 0) } }]).filterMap
      (fun t => t.result_image)).Nodup :=
  have hnd : ((resultsOf
      [{ type := "signal", path := "s1",
         data := some { coin := some "BTC", entry_price := some 1,
                        roi := some (some 1), timestamp := some (some 0) } },
       { type := "signal", path := "s2",
         data := some { coin := some "BTC", entry_price := some 1,
                        roi := some (some 1), timestamp := some (some 0) } },
       { type := "result", path := "r1",
         data := some { coin := some "BTC", entry_price := some 1,
                        roi := some (some 2), timestamp := some (some 0) } },
       { type := "result", path := "r2",
         data := some { coin := some "BTC", entry_price := some 1,
                        roi := some (some 2), timestamp := some (some 0) } }]).map
    (fun r => r.path)).Nodup := by
    simp [resultsOf]
  ⟨hnd, C4_result_exclusivity (8/10) _ hnd⟩

/-- C5: when the candidate scan settles on `(i, sc)`, the chosen index
is in range, unconsumed, its score meets the threshold, every
unconsumed candidate scores at most `sc`, every unconsumed candidate
strictly before `i` scores strictly below `sc` (so among equal top
scores the first-encountered result wins), and processing the signal
consumes exactly that index. -/
theorem C5_first_best_consumed (tau : ℚ) (signal_data : RecData) (results : List PyRecord)
    (used : List Nat) (i : Nat) (sc : ℚ)
    (h : scanResults tau signal_data results used = some (i, sc))
    (hcoin : truthyStr signal_data.coin = true) :
    i < results.length ∧ i ∉ used ∧ tau ≤ sc ∧
    (∃ rd, (results.getD i dfltRec).data = some rd ∧
      sc = calculate_match_score signal_data rd) ∧
    candDom tau signal_data used results 0 sc ∧
    candStrict tau signal_data used results 0 i sc ∧
    (∀ spath trades,
      stepSignal tau results (used, trades)
          { type := "signal", data := some signal_data, path := spath } =
        (used ++ [i],
         trades ++ [mkMatchedTrade signal_data spath
           ((results.getD i dfltRec).data.getD {}) (results.getD i dfltRec).path sc])) := by
  obtain ⟨hlt, hnu, rd, hdata, hsc, htau, hpos, hdom, hstrict⟩ :=
    scanResults_spec tau signal_data results used i sc h
  refine ⟨hlt, hnu, htau, ⟨rd, hdata, hsc⟩, hdom, hstrict, ?_⟩
  intro spath trades
  simp only [stepSignal, if_pos hcoin, h]

/-- Witness for C5: two identical results both scoring 1.0; the scan
returns the first index 0, and processing the signal consumes it. -/
theorem C5_first_best_consumed_witness :
    scanResults (8/10)
        { coin := some "SOL", entry_price := some 2, timestamp := some (some 100) }
        [{ type := "result", path := "rA",
           data := some { coin := some "SOL", entry_price := some 2,
                          roi := some (some 3), timestamp := some (some 100) } },
         { type := "result", path := "rB",
           data := some { coin := some "SOL", entry_price := some 2,
                          roi := some (some 3), timestamp := some (some 100) } }] [] =
      some (0, 1) ∧
    truthyStr (({ coin := some "SOL", entry_price := some 2,
                  timestamp := some (some 100) } : RecData)).coin = true ∧
    (0 < ([{ type := "result", path := "rA",
             data := some { coin := some "SOL", entry_price := some 2,
                            roi := some (some 3), timestamp := some (some 100) } },
           { type := "result", path := "rB",
             data := some { coin := some "SOL", entry_price := some 2,
                            roi := some (some 3), timestamp := some (some 100) } }] :
          List PyRecord).length ∧
      (0 : Nat) ∉ ([] : List Nat) ∧ (8/10 : ℚ) ≤ 1 ∧
      (∃ rd, (([{ type := "result", path := "rA",
                  data := some { coin := some "SOL", entry_price := some 2,
                                 roi := some (some 3), timestamp := some (some 100) } },
                { type := "result", path := "rB",
                  data := some { coin := some "SOL", entry_price := some 2,
                                 roi := some (some 3), timestamp := some (some 100) } }] :
            List PyRecord).getD 0 dfltRec).data = some rd ∧
        (1 : ℚ) = calculate_match_score
          { coin := some "SOL", entry_price := some 2, timestamp := some (some 100) } rd) ∧
      candDom (8/10) { coin := some "SOL", entry_price := some 2, timestamp := some (some 100) }
        []
        [{ type := "result", path := "rA",
           data := some { coin := some "SOL", entry_price := some 2,
                          roi := some (some 3), timestamp := some (some 100) } },
         { type := "result", path := "rB",
           data := some { coin := some "SOL", entry_price := some 2,
                          roi := some (some 3), timestamp := some (some 100) } }] 0 1 ∧
      candStrict (8/10) { coin := some "SOL", entry_price := some 2, timestamp := some (some 100) }
        []
        [{ type := "result", path := "rA",
           data := some { coin := some "SOL", entry_price := some 2,
                          roi := some (some 3), timestamp := some (some 100) } },
         { type := "result", path := "rB",
           data := some { coin := some "SOL", entry_price := some 2,
                          roi := some (some 3), timestamp := some (some 100) } }] 0 0 1 ∧
      (∀ spath trades,
        stepSignal (8/10)
            [{ type := "result", path := "rA",
               data := some { coin := some "SOL", entry_price := some 2,
                              roi := some (some 3), timestamp := some (some 100) } },
             { type := "result", path := "rB",
               data := some { coin := some "SOL", entry_price := some 2,
                              roi := some (some 3), timestamp := some (some 100) } }]
            ([], trades)
            { type := "signal",
              data := some { coin := some "SOL", entry_price := some 2,
                             timestamp := some (some 100) },
              path := spath } =
          ([] ++ [0],
           trades ++ [mkMatchedTrade
             { coin := some "SOL", entry_price := some 2, timestamp := some (some 100) }
             spath
             ((([{ type := "result", path := "rA",
                   data := some { coin := some "SOL", entry_price := some 2,
                                  roi := some (some 3), timestamp := some (some 100) } },
                 { type := "result", path := "rB",
                   data := some { coin := some "SOL", entry_price := some 2,
                                  roi := some (some 3), timestamp := some (some 100) } }] :
                List PyRecord).getD 0 dfltRec).data.getD {})
             (([{ type := "result", path := "rA",
                  data := some { coin := some "SOL", entry_price := some 2,
                                 roi := some (some 3), timestamp := some (some 100) } },
                { type := "result", path := "rB",
                  data := some { coin := some "SOL", entry_price := some 2,
                                 roi := some (some 3), timestamp := some (some 100) } }] :
                List PyRecord).getD 0 dfltRec).path 1]))) :=
  have hscan : scanResults (8/10)
      { coin := some "SOL", entry_price := some 2, timestamp := some (some 100) }
      [{ type := "result", path := "rA",
         data := some { coin := some "SOL", entry_price := some 2,
                        roi := some (some 3), timestamp := some (some 100) } },
       { type := "result", path := "rB",
         data := some { coin := some "SOL", entry_price := some 2,
                        roi := some (some 3), timestamp := some (some 100) } }] [] =
      some (0, 1) := by
    simp [scanResults, scanFrom, calculate_match_score, coinEarnV, coinMaxV, coinApp,
      timeEarnV, timeMaxV, timeApp, priceEarnV, priceMaxV, priceApp, resultPriceV,
      truthyStr, truthyQ]
    norm_num
  have hcoin : truthyStr (({ coin := some "SOL", entry_price := some 2,
                             timestamp := some (some 100) } : RecData)).coin = true := by decide
  ⟨hscan, hcoin, C5_first_best_consumed (8/10) _ _ [] 0 1 hscan hcoin⟩

/-- C2: the spec claims a record lacking a recognized coin is never
matched and never appears in any output.  The candidate scan only
skips results whose whole `data` is falsy, not results with an empty
coin: this result with `coin = ""` still scores 1.0 from the temporal
and price factors alone, is consumed as the signal's match, and the
emitted trade references it. -/
theorem C2_counterexample :
    match_signals_to_results defaultThreshold
        [{ type := "signal", path := "s1",
           data := some { coin := some "BTC", entry_price := some 1,
                          roi := some (some 5), timestamp := some (some 0) } },
         { type := "result", path := "r1",
           data := some { coin := some "", entry_price := some 1,
                          roi := some (some 7), timestamp := some (some 0) } }] =
      [{ coin := "BTC", entry_price := some 1, exit_price := none, roi := some 7,
         status := some "unknown", signal_image := some "s1", result_image := some "r1",
         match_confidence := 1, timestamp := some (some 0) }] ∧
    ({ coin := "BTC", entry_price := some 1, exit_price := none, roi := some 7,
       status := some "unknown", signal_image := some "s1", result_image := some "r1",
       match_confidence := 1, timestamp := some (some 0) } : Trade).result_image =
      some "r1" := by
  constructor
  · simp [match_signals_to_results, matchBody, allTrades, signalsOf, resultsOf, runSignals,
      stepSignal, scanResults, scanFrom, calculate_match_score, coinEarnV, coinMaxV, coinApp,
      timeEarnV, timeMaxV, timeApp, priceEarnV, priceMaxV, priceApp, resultPriceV,
      truthyStr, truthyQ, resultOnlyFrom, pySortRoi, sortRoiDesc, insertRoiDesc,
      mkMatchedTrade, defaultThreshold, dfltRec]
    norm_num [insertRoiDesc]
  · rfl

/-- C2 (amended): a signal or result lacking a truthy coin is never
emitted as its own trade — every emitted trade carries a non-empty
coin, and every result-only trade references a result record whose
data carries that coin.  (A coinless result can, however, still be
consumed as a signal's match when the temporal and price factors alone
reach the threshold, as the counterexample shows.) -/
theorem C2_emitted_coins_nonempty (tau : ℚ) (processed_data : List PyRecord) (t : Trade)
    (h : t ∈ match_signals_to_results tau processed_data) :
    t.coin ≠ "" ∧
    (t.signal_image = none → ∃ r ∈ processed_data, r.type = "result" ∧
      t.result_image = some r.path ∧ ∃ rd, r.data = some rd ∧ rd.coin = some t.coin) := by
  have hall := mem_match_output tau processed_data t h
  rw [allTrades_eq, List.mem_append] at hall
  rcases hall with hs | hr
  · rcases foldSignals_shape tau (resultsOf processed_data) (signalsOf processed_data)
        ([], []) t hs with habs | ⟨s, hsmem, sd, hdata, hcoin, hshape⟩
    · simp at habs
    · obtain ⟨c, hc_eq, hc_ne⟩ := (truthyStr_iff sd.coin).mp hcoin
      rcases hshape with ⟨used2, i, sc, hscan, ht⟩ | ht
      · subst ht
        refine ⟨by simpa [mkMatchedTrade, hc_eq] using hc_ne, fun hnone => ?_⟩
        simp [mkMatchedTrade] at hnone
      · subst ht
        refine ⟨by simpa [mkSignalOnlyTrade, hc_eq] using hc_ne, fun hnone => ?_⟩
        simp [mkSignalOnlyTrade] at hnone
  · obtain ⟨k, rd, hk, hku, hdata, hcoin, ht⟩ :=
      resultOnlyFrom_shape _ (resultsOf processed_data) 0 t hr
    obtain ⟨c, hc_eq, hc_ne⟩ := (truthyStr_iff rd.coin).mp hcoin
    have hmem : (resultsOf processed_data).getD k dfltRec ∈ resultsOf processed_data := by
      rw [List.getD_eq_getElem _ _ hk]
      exact List.getElem_mem hk
    have hmemP := List.mem_filter.mp (by rw [resultsOf] at hmem; exact hmem)
    subst ht
    refine ⟨by simpa [mkResultOnlyTrade, hc_eq] using hc_ne, fun _ => ?_⟩
    refine ⟨(resultsOf processed_data).getD k dfltRec, hmemP.1, by simpa using hmemP.2,
      by simp [mkResultOnlyTrade], rd, hdata, ?_⟩
    simp [mkResultOnlyTrade, hc_eq]

/-- Witness for the amended C2: a lone signal with coin `"XRP"` is
emitted as a signal-only trade with a non-empty coin. -/
theorem C2_emitted_coins_nonempty_witness :
    ({ coin := "XRP", entry_price := some 3, roi := some 2, status := some "pending",
       signal_image := some "s9", match_confidence := 0 } : Trade) ∈
      match_signals_to_results (8/10)
        [{ type := "signal", path := "s9",
           data := some { coin := some "XRP", entry_price := some 3,
                          roi := some (some 2) } }] ∧
    (({ coin := "XRP", entry_price := some 3, roi := some 2, status := some "pending",
        signal_image := some "s9", match_confidence := 0 } : Trade).coin ≠ "" ∧
      (({ coin := "XRP", entry_price := some 3, roi := some 2, status := some "pending",
          signal_image := some "s9", match_confidence := 0 } : Trade).signal_image = none →
        ∃ r ∈ [({ type := "signal", path := "s9",
                  data := some { coin := some "XRP", entry_price := some 3,
                                 roi := some (some 2) } } : PyRecord)],
          r.type = "result" ∧
          ({ coin := "XRP", entry_price := some 3, roi := some 2, status := some "pending",
             signal_image := some "s9", match_confidence := 0 } : Trade).result_image =
            some r.path ∧
          ∃ rd, r.data = some rd ∧ rd.coin =
            some ({ coin := "XRP", entry_price := some 3, roi := some 2,
                    status := some "pending", signal_image := some "s9",
                    match_confidence := 0 } : Trade).coin)) :=
  have hmem : ({ coin := "XRP", entry_price := some 3, roi := some 2,
                 status := some "pending",
                 signal_image := some "s9", match_confidence := 0 } : Trade) ∈
      match_signals_to_results (8/10)
        [{ type := "signal", path := "s9",
           data := some { coin := some "XRP", entry_price := some 3,
                          roi := some (some 2) } }] := by
    simp [match_signals_to_results, matchBody, allTrades, signalsOf, resultsOf, runSignals,
      stepSignal, scanResults, scanFrom, resultOnlyFrom, pySortRoi, sortRoiDesc,
      insertRoiDesc, mkSignalOnlyTrade, truthyStr]
  ⟨hmem, C2_emitted_coins_nonempty (8/10) _ _ hmem⟩

/-- C7: the spec claims exit price, roi and status are merged with the
result's value taking precedence and the signal's as fallback.  In the
code the exit price comes only from the result (a present signal exit
price is dropped), the roi falls back to the signal's only when the
result dict has no `roi` key at all (a stored `None` wins over the
signal's value), and the status falls back to the constant
`'unknown'`, never to the signal's status: here the signal has
`exit_price = 2`, `roi = 7`, `status = "win"`, yet the merged trade
carries `exit_price = none`, `roi = none`, `status = "unknown"`. -/
theorem C7_counterexample :
    match_signals_to_results defaultThreshold
        [{ type := "signal", path := "s7",
           data := some { coin := some "ADA", entry_price := some 1, exit_price := some 2,
                          roi := some (some 7), status := some (some "win"),
                          timestamp := some (some 0) } },
         { type := "result", path := "r7",
           data := some { coin := some "ADA", entry_price := some 1,
                          roi := some none, timestamp := some (some 0) } }] =
      [{ coin := "ADA", entry_price := some 1, exit_price := none, roi := none,
         status := some "unknown", signal_image := some "s7", result_image := some "r7",
         match_confidence := 1, timestamp := some (some 0) }] := by
  have hrun : runSignals defaultThreshold
      (resultsOf
        [{ type := "signal", path := "s7",
           data := some { coin := some "ADA", entry_price := some 1, exit_price := some 2,
                          roi := some (some 7), status := some (some "win"),
                          timestamp := some (some 0) } },
         { type := "result", path := "r7",
           data := some { coin := some "ADA", entry_price := some 1,
                          roi := some none, timestamp := some (some 0) } }])
      (signalsOf
        [{ type := "signal", path := "s7",
           data := some { coin := some "ADA", entry_price := some 1, exit_price := some 2,
                          roi := some (some 7), status := some (some "win"),
                          timestamp := some (some 0) } },
         { type := "result", path := "r7",
           data := some { coin := some "ADA", entry_price := some 1,
                          roi := some none, timestamp := some (some 0) } }]) =
      ([0], [{ coin := "ADA", entry_price := some 1, exit_price := none, roi := none,
               status := some "unknown", signal_image := some "s7",
               result_image := some "r7", match_confidence := 1,
               timestamp := some (some 0) }]) := by
    simp [runSignals, signalsOf, resultsOf, stepSignal, scanResults, scanFrom,
      calculate_match_score, coinEarnV, coinMaxV, coinApp, timeEarnV, timeMaxV, timeApp,
      priceEarnV, priceMaxV, priceApp, resultPriceV, truthyStr, truthyQ, mkMatchedTrade,
      defaultThreshold, dfltRec]
    norm_num
  have htr : allTrades defaultThreshold
      [{ type := "signal", path := "s7",
         data := some { coin := some "ADA", entry_price := some 1, exit_price := some 2,
                        roi := some (some 7), status := some (some "win"),
                        timestamp := some (some 0) } },
       { type := "result", path := "r7",
         data := some { coin := some "ADA", entry_price := some 1,
                        roi := some none, timestamp := some (some 0) } }] =
      [{ coin := "ADA", entry_price := some 1, exit_price := none, roi := none,
         status := some "unknown", signal_image := some "s7", result_image := some "r7",
         match_confidence := 1, timestamp := some (some 0) }] := by
    rw [allTrades_eq, hrun]
    simp [resultOnlyFrom, resultsOf]
  rw [match_signals_to_results, matchBody, htr, pySortRoi]
  norm_num [sortRoiDesc, insertRoiDesc]

/-- C7 (amended): every matched trade merges its two source records
with entry price from the signal, exit price from the result only,
roi from the result unless the result dict lacks the `roi` key
entirely (then the signal's collapsed roi), and status from the result
defaulting to `"unknown"`. -/
theorem C7_merge_fields (tau : ℚ) (processed_data : List PyRecord) (t : Trade)
    (h : t ∈ match_signals_to_results tau processed_data)
    (hsig : t.signal_image.isSome = true) (hres : t.result_image.isSome = true) :
    ∃ s ∈ processed_data, ∃ r ∈ processed_data, s.type = "signal" ∧ r.type = "result" ∧
      ∃ sd rd sc, s.data = some sd ∧ r.data = some rd ∧
        t = mkMatchedTrade sd s.path rd r.path sc ∧
        t.entry_price = sd.entry_price ∧
        t.exit_price = rd.exit_price ∧
        t.roi = (match rd.roi with | some v => v | none => sd.roi.join) ∧
        t.status = (match rd.status with | some v => v | none => some "unknown") := by
  have hall := mem_match_output tau processed_data t h
  rw [allTrades_eq, List.mem_append] at hall
  rcases hall with hs | hr
  · rcases foldSignals_shape tau (resultsOf processed_data) (signalsOf processed_data)
        ([], []) t hs with habs | ⟨s, hsmem, sd, hdata, hcoin, hshape⟩
    · simp at habs
    · rcases hshape with ⟨used2, i, sc, hscan, ht⟩ | ht
      · obtain ⟨hilt, hinu, rd, hrdata, hsc, -⟩ :=
          scanResults_spec tau sd (resultsOf processed_data) used2 i sc hscan
        have hgd : ((resultsOf processed_data).getD i dfltRec).data.getD {} = rd := by
          rw [hrdata]
          rfl
        rw [hgd] at ht
        have hmem : (resultsOf processed_data).getD i dfltRec ∈ resultsOf processed_data := by
          rw [List.getD_eq_getElem _ _ hilt]
          exact List.getElem_mem hilt
        have hmemP := List.mem_filter.mp (by rw [resultsOf] at hmem; exact hmem)
        have hsmemP := List.mem_filter.mp (by rw [signalsOf] at hsmem; exact hsmem)
        subst ht
        exact ⟨s, hsmemP.1, (resultsOf processed_data).getD i dfltRec, hmemP.1,
          by simpa using hsmemP.2, by simpa using hmemP.2,
          sd, rd, sc, hdata, hrdata, rfl, rfl, rfl, rfl, rfl⟩
      · subst ht
        simp [mkSignalOnlyTrade] at hres
  · obtain ⟨k, rd, hk, hku, hdata, hcoin, ht⟩ :=
      resultOnlyFrom_shape _ (resultsOf processed_data) 0 t hr
    subst ht
    simp [mkResultOnlyTrade] at hsig

/-- Witness for the amended C7: a matched trade whose result side
carries exit price, roi and status. -/
theorem C7_merge_fields_witness :
    ({ coin := "EPIC", entry_price := some 1, exit_price := some 7, roi := some 5261,
       status := some "win", signal_image := some "s7", result_image := some "r7",
       match_confidence := 1, timestamp := some (some 0) } : Trade) ∈
      match_signals_to_results (8/10)
        [{ type := "signal", path := "s7",
           data := some { coin := some "EPIC", entry_price := some 1,
                          roi := some (some 1), status := some (some "neutral"),
                          timestamp := some (some 0) } },
         { type := "result", path := "r7",
           data := some { coin := some "EPIC", entry_price := some 1, exit_price := some 7,
                          roi := some (some 5261), status := some (some "win"),
                          timestamp := some (some 600) } }] ∧
    (({ coin := "EPIC", entry_price := some 1, exit_price := some 7, roi := some 5261,
        status := some "win", signal_image := some "s7", result_image := some "r7",
        match_confidence := 1, timestamp := some (some 0) } : Trade)).signal_image.isSome =
      true ∧
    (({ coin := "EPIC", entry_price := some 1, exit_price := some 7, roi := some 5261,
        status := some "win", signal_image := some "s7", result_image := some "r7",
        match_confidence := 1, timestamp := some (some 0) } : Trade)).result_image.isSome =
      true ∧
    (∃ s ∈ [({ type := "signal", path := "s7",
               data := some { coin := some "EPIC", entry_price := some 1,
                              roi := some (some 1), status := some (some "neutral"),
                              timestamp := some (some 0) } } : PyRecord),
            ({ type := "result", path := "r7",
               data := some { coin := some "EPIC", entry_price := some 1,
                              exit_price := some 7, roi := some (some 5261),
                              status := some (some "win"),
                              timestamp := some (some 600) } } : PyRecord)],
      ∃ r ∈ [({ type := "signal", path := "s7",
                data := some { coin := some "EPIC", entry_price := some 1,
                               roi := some (some 1), status := some (some "neutral"),
                               timestamp := some (some 0) } } : PyRecord),
             ({ type := "result", path := "r7",
                data := some { coin := some "EPIC", entry_price := some 1,
                               exit_price := some 7, roi := some (some 5261),
                               status := some (some "win"),
                               timestamp := some (some 600) } } : PyRecord)],
        s.type = "signal" ∧ r.type = "result" ∧
        ∃ sd rd sc, s.data = some sd ∧ r.data = some rd ∧
          ({ coin := "EPIC", entry_price := some 1, exit_price := some 7, roi := some 5261,
             status := some "win", signal_image := some "s7", result_image := some "r7",
             match_confidence := 1, timestamp := some (some 0) } : Trade) =
            mkMatchedTrade sd s.path rd r.path sc ∧
          ({ coin := "EPIC", entry_price := some 1, exit_price := some 7, roi := some 5261,
             status := some "win", signal_image := some "s7", result_image := some "r7",
             match_confidence := 1, timestamp := some (some 0) } : Trade).entry_price =
            sd.entry_price ∧
          ({ coin := "EPIC", entry_price := some 1, exit_price := some 7, roi := some 5261,
             status := some "win", signal_image := some "s7", result_image := some "r7",
             match_confidence := 1, timestamp := some (some 0) } : Trade).exit_price =
            rd.exit_price ∧
          ({ coin := "EPIC", entry_price := some 1, exit_price := some 7, roi := some 5261,
             status := some "win", signal_image := some "s7", result_image := some "r7",
             match_confidence := 1, timestamp := some (some 0) } : Trade).roi =
            (match rd.roi with | some v => v | none => sd.roi.join) ∧
          ({ coin := "EPIC", entry_price := some 1, exit_price := some 7, roi := some 5261,
             status := some "win", signal_image := some "s7", result_image := some "r7",
             match_confidence := 1, timestamp := some (some 0) } : Trade).status =
            (match rd.status with | some v => v | none => some "unknown")) :=
  have hmem : ({ coin := "EPIC", entry_price := some 1, exit_price := some 7,
                 roi := some 5261,
                 status := some "win", signal_image := some "s7", result_image := some "r7",
                 match_confidence := 1, timestamp := some (some 0) } : Trade) ∈
      match_signals_to_results (8/10)
        [{ type := "signal", path := "s7",
           data := some { coin := some "EPIC", entry_price := some 1,
                          roi := some (some 1), status := some (some "neutral"),
                          timestamp := some (some 0) } },
         { type := "result", path := "r7",
           data := some { coin := some "EPIC", entry_price := some 1, exit_price := some 7,
                          roi := some (some 5261), status := some (some "win"),
                          timestamp := some (some 600) } }] := by
    have hrun : runSignals (8/10)
        (resultsOf
          [{ type := "signal", path := "s7",
             data := some { coin := some "EPIC", entry_price := some 1,
                            roi := some (some 1), status := some (some "neutral"),
                            timestamp := some (some 0) } },
           { type := "result", path := "r7",
             data := some { coin := some "EPIC", entry_price := some 1,
                            exit_price := some 7, roi := some (some 5261),
                            status := some (some "win"),
                            timestamp := some (some 600) } }])
        (signalsOf
          [{ type := "signal", path := "s7",
             data := some { coin := some "EPIC", entry_price := some 1,
                            roi := some (some 1), status := some (some "neutral"),
                            timestamp := some (some 0) } },
           { type := "result", path := "r7",
             data := some { coin := some "EPIC", entry_price := some 1,
                            exit_price := some 7, roi := some (some 5261),
                            status := some (some "win"),
                            timestamp := some (some 600) } }]) =
        ([0], [{ coin := "EPIC", entry_price := some 1, exit_price := some 7,
                 roi := some 5261, status := some "win", signal_image := some "s7",
                 result_image := some "r7", match_confidence := 1,
                 timestamp := some (some 0) }]) := by
      simp [runSignals, signalsOf, resultsOf, stepSignal, scanResults, scanFrom,
        calculate_match_score, coinEarnV, coinMaxV, coinApp, timeEarnV, timeMaxV, timeApp,
        priceEarnV, priceMaxV, priceApp, resultPriceV, truthyStr, truthyQ, mkMatchedTrade,
        dfltRec]
      norm_num
    have htr : allTrades (8/10)
        [{ type := "signal", path := "s7",
           data := some { coin := some "EPIC", entry_price := some 1,
                          roi := some (some 1), status := some (some "neutral"),
                          timestamp := some (some 0) } },
         { type := "result", path := "r7",
           data := some { coin := some "EPIC", entry_price := some 1, exit_price := some 7,
                          roi := some (some 5261), status := some (some "win"),
                          timestamp := some (some 600) } }] =
        [{ coin := "EPIC", entry_price := some 1, exit_price := some 7, roi := some 5261,
           status := some "win", signal_image := some "s7", result_image := some "r7",
           match_confidence := 1, timestamp := some (some 0) }] := by
      rw [allTrades_eq, hrun]
      simp [resultOnlyFrom, resultsOf]
    rw [match_signals_to_results, matchBody, htr, pySortRoi]
    norm_num [sortRoiDesc, insertRoiDesc]
  ⟨hmem, rfl, rfl, C7_merge_fields (8/10) _ _ hmem rfl rfl⟩

/-- C9: every trade emitted by `match_signals_to_results` carries a
match confidence that is either exactly 0 (signal-only and result-only
trades) or at least the threshold and at most 1 (matched trades); no
confidence lies strictly between 0 and the threshold.  Prices are
assumed nonnegative, as the producing stage's range filter
guarantees. -/
theorem C9_confidence_zero_or_thresholded (tau : ℚ) (processed_data : List PyRecord)
    (hp : ∀ r ∈ processed_data, ∀ rd, r.data = some rd →
      (∀ p, rd.entry_price = some p → 0 ≤ p) ∧ (∀ p, rd.exit_price = some p → 0 ≤ p)) :
    ∀ t ∈ match_signals_to_results tau processed_data,
      t.match_confidence = 0 ∨
        (tau ≤ t.match_confidence ∧ t.match_confidence ≤ 1) := by
  intro t h
  have hall := mem_match_output tau processed_data t h
  rw [allTrades_eq, List.mem_append] at hall
  rcases hall with hs | hr
  · rcases foldSignals_shape tau (resultsOf processed_data) (signalsOf processed_data)
        ([], []) t hs with habs | ⟨s, hsmem, sd, hdata, hcoin, hshape⟩
    · simp at habs
    · rcases hshape with ⟨used2, i, sc, hscan, ht⟩ | ht
      · obtain ⟨hilt, hinu, rd, hrdata, hsc, htau, hpos, -⟩ :=
          scanResults_spec tau sd (resultsOf processed_data) used2 i sc hscan
        right
        have hconf : t.match_confidence = sc := by
          rw [ht]
          rfl
        rw [hconf]
        have hsmemP := List.mem_filter.mp (by rw [signalsOf] at hsmem; exact hsmem)
        have hmem : (resultsOf processed_data).getD i dfltRec ∈ resultsOf processed_data := by
          rw [List.getD_eq_getElem _ _ hilt]
          exact List.getElem_mem hilt
        have hmemP := List.mem_filter.mp (by rw [resultsOf] at hmem; exact hmem)
        have hsP := hp s hsmemP.1 sd hdata
        have hrP := hp _ hmemP.1 rd hrdata
        exact ⟨htau, by
          rw [hsc]
          exact calculate_match_score_le_one sd rd hsP.1 hrP.1 hrP.2⟩
      · left
        rw [ht]
        rfl
  · obtain ⟨k, rd, hk, hku, hdata, hcoin, ht⟩ :=
      resultOnlyFrom_shape _ (resultsOf processed_data) 0 t hr
    left
    rw [ht]
    rfl

/-- Witness for C9: a matched trade with confidence 1 and threshold
8/10 on records whose prices are nonnegative. -/
theorem C9_confidence_zero_or_thresholded_witness :
    (∀ r ∈ [({ type := "signal", path := "sw",
               data := some { coin := some "BTC", entry_price := some 1,
                              timestamp := some (some 0) } } : PyRecord),
            ({ type := "result", path := "rw",
               data := some { coin := some "BTC", entry_price := some 1,
                              roi := some (some 2), timestamp := some (some 0) } } : PyRecord)],
      ∀ rd, r.data = some rd →
        (∀ p, rd.entry_price = some p → 0 ≤ p) ∧ (∀ p, rd.exit_price = some p → 0 ≤ p)) ∧
    (∀ t ∈ match_signals_to_results (8/10)
        [({ type := "signal", path := "sw",
            data := some { coin := some "BTC", entry_price := some 1,
                           timestamp := some (some 0) } } : PyRecord),
         ({ type := "result", path := "rw",
            data := some { coin := some "BTC", entry_price := some 1,
                           roi := some (some 2), timestamp := some (some 0) } } : PyRecord)],
      t.match_confidence = 0 ∨
        ((8/10 : ℚ) ≤ t.match_confidence ∧ t.match_confidence ≤ 1)) :=
  have hp : ∀ r ∈ [({ type := "signal", path := "sw",
                      data := some { coin := some "BTC", entry_price := some 1,
                                     timestamp := some (some 0) } } : PyRecord),
                   ({ type := "result", path := "rw",
                      data := some { coin := some "BTC", entry_price := some 1,
                                     roi := some (some 2),
                                     timestamp := some (some 0) } } : PyRecord)],
      ∀ rd, r.data = some rd →
        (∀ p, rd.entry_price = some p → 0 ≤ p) ∧ (∀ p, rd.exit_price = some p → 0 ≤ p) := by
    intro r hr rd hrd
    rcases List.mem_cons.mp hr with h1 | h1
    · rw [h1] at hrd
      injection hrd with h2
      subst h2
      refine ⟨fun p hp2 => ?_, fun p hp2 => ?_⟩
      · injection hp2 with h3
        rw [← h3]
        norm_num
      · exact absurd hp2 (by simp)
    · rcases List.mem_cons.mp h1 with h2 | h2
      · rw [h2] at hrd
        injection hrd with h3
        subst h3
        refine ⟨fun p hp2 => ?_, fun p hp2 => ?_⟩
        · injection hp2 with h4
          rw [← h4]
          norm_num
        · exact absurd hp2 (by simp)
      · exact absurd h2 (List.not_mem_nil r)
  ⟨hp, C9_confidence_zero_or_thresholded (8/10) _ hp⟩

/-- C10: every matched trade takes its coin from the signal record it
references, even when it was matched to a result carrying a merely
similar coin symbol. -/
theorem C10_matched_coin_from_signal (tau : ℚ) (processed_data : List PyRecord) (t : Trade)
    (h : t ∈ match_signals_to_results tau processed_data)
    (hsig : t.signal_image.isSome = true) (hres : t.result_image.isSome = true) :
    ∃ s ∈ processed_data, s.type = "signal" ∧ t.signal_image = some s.path ∧
      ∃ sd, s.data = some sd ∧ sd.coin = some t.coin := by
  have hall := mem_match_output tau processed_data t h
  rw [allTrades_eq, List.mem_append] at hall
  rcases hall with hs | hr
  · rcases foldSignals_shape tau (resultsOf processed_data) (signalsOf processed_data)
        ([], []) t hs with habs | ⟨s, hsmem, sd, hdata, hcoin, hshape⟩
    · simp at habs
    · obtain ⟨c, hc_eq, hc_ne⟩ := (truthyStr_iff sd.coin).mp hcoin
      have hsmemP := List.mem_filter.mp (by rw [signalsOf] at hsmem; exact hsmem)
      rcases hshape with ⟨used2, i, sc, hscan, ht⟩ | ht
      · subst ht
        exact ⟨s, hsmemP.1, by simpa using hsmemP.2, rfl, sd, hdata,
          by simp [mkMatchedTrade, hc_eq]⟩
      · subst ht
        simp [mkSignalOnlyTrade] at hres
  · obtain ⟨k, rd, hk, hku, hdata, hcoin, ht⟩ :=
      resultOnlyFrom_shape _ (resultsOf processed_data) 0 t hr
    subst ht
    simp [mkResultOnlyTrade] at hsig

/-- Witness for C10: with threshold 6/10 a signal with coin `"DOGE"`
is matched to a result carrying the merely similar coin `"DOGEX"`
(similarity 8/9), and the emitted trade's coin is the signal's
`"DOGE"`, not the result's. -/
theorem C10_matched_coin_from_signal_witness :
    ({ coin := "DOGE", entry_price := some 1, exit_price := none, roi := some 9,
       status := some "win", signal_image := some "sigD", result_image := some "resD",
       match_confidence := 2/3, timestamp := some (some 0) } : Trade) ∈
      match_signals_to_results (6/10)
        [{ type := "signal", path := "sigD",
           data := some { coin := some "DOGE", entry_price := some 1,
                          roi := some (some 4), timestamp := some (some 0) } },
         { type := "result", path := "resD",
           data := some { coin := some "DOGEX", entry_price := some 1,
                          roi := some (some 9), status := some (some "win"),
                          timestamp := some (some 0) } }] ∧
    (∃ s ∈ [({ type := "signal", path := "sigD",
               data := some { coin := some "DOGE", entry_price := some 1,
                              roi := some (some 4), timestamp := some (some 0) } } : PyRecord),
            ({ type := "result", path := "resD",
               data := some { coin := some "DOGEX", entry_price := some 1,
                              roi := some (some 9), status := some (some "win"),
                              timestamp := some (some 0) } } : PyRecord)],
      s.type = "signal" ∧
      ({ coin := "DOGE", entry_price := some 1, exit_price := none, roi := some 9,
         status := some "win", signal_image := some "sigD", result_image := some "resD",
         match_confidence := 2/3, timestamp := some (some 0) } : Trade).signal_image =
        some s.path ∧
      ∃ sd, s.data = some sd ∧ sd.coin =
        some ({ coin := "DOGE", entry_price := some 1, exit_price := none, roi := some 9,
                status := some "win", signal_image := some "sigD",
                result_image := some "resD", match_confidence := 2/3,
                timestamp := some (some 0) } : Trade).coin) :=
  have hmem : ({ coin := "DOGE", entry_price := some 1, exit_price := none, roi := some 9,
                 status := some "win", signal_image := some "sigD",
                 result_image := some "resD", match_confidence := 2/3,
                 timestamp := some (some 0) } : Trade) ∈
      match_signals_to_results (6/10)
        [{ type := "signal", path := "sigD",
           data := some { coin := some "DOGE", entry_price := some 1,
                          roi := some (some 4), timestamp := some (some 0) } },
         { type := "result", path := "resD",
           data := some { coin := some "DOGEX", entry_price := some 1,
                          roi := some (some 9), status := some (some "win"),
                          timestamp := some (some 0) } }] := by
    have hrun : runSignals (6/10)
        (resultsOf
          [{ type := "signal", path := "sigD",
             data := some { coin := some "DOGE", entry_price := some 1,
                            roi := some (some 4), timestamp := some (some 0) } },
           { type := "result", path := "resD",
             data := some { coin := some "DOGEX", entry_price := some 1,
                            roi := some (some 9), status := some (some "win"),
                            timestamp := some (some 0) } }])
        (signalsOf
          [{ type := "signal", path := "sigD",
             data := some { coin := some "DOGE", entry_price := some 1,
                            roi := some (some 4), timestamp := some (some 0) } },
           { type := "result", path := "resD",
             data := some { coin := some "DOGEX", entry_price := some 1,
                            roi := some (some 9), status := some (some "win"),
                            timestamp := some (some 0) } }]) =
        ([0], [{ coin := "DOGE", entry_price := some 1, exit_price := none, roi := some 9,
                 status := some "win", signal_image := some "sigD",
                 result_image := some "resD", match_confidence := 2/3,
                 timestamp := some (some 0) }]) := by
      simp [runSignals, signalsOf, resultsOf, stepSignal, scanResults, scanFrom,
        calculate_match_score, coinEarnV, coinMaxV, coinApp, timeEarnV, timeMaxV, timeApp,
        priceEarnV, priceMaxV, priceApp, resultPriceV, truthyStr, truthyQ, mkMatchedTrade,
        seqSim, totalMatch, totalMatchFuel, findBestBlock, bestAll, bestRow, lcp, dfltRec]
      norm_num
    have htr : allTrades (6/10)
        [{ type := "signal", path := "sigD",
           data := some { coin := some "DOGE", entry_price := some 1,
                          roi := some (some 4), timestamp := some (some 0) } },
         { type := "result", path := "resD",
           data := some { coin := some "DOGEX", entry_price := some 1,
                          roi := some (some 9), status := some (some "win"),
                          timestamp := some (some 0) } }] =
        [{ coin := "DOGE", entry_price := some 1, exit_price := none, roi := some 9,
           status := some "win", signal_image := some "sigD", result_image := some "resD",
           match_confidence := 2/3, timestamp := some (some 0) }] := by
      rw [allTrades_eq, hrun]
      simp [resultOnlyFrom, resultsOf]
    rw [match_signals_to_results, matchBody, htr, pySortRoi]
    norm_num [sortRoiDesc, insertRoiDesc]
  ⟨hmem, C10_matched_coin_from_signal (6/10) _ _ hmem rfl rfl⟩

set_option maxRecDepth 4000 in
/-- C8: the spec claims a best similarity match is accepted exactly
when the ratio is at least 0.8, in particular at exactly 0.8.  The
code tests `similarity > 0.8` strictly: the token `"EPXICY"` has best
similarity exactly 8/10 against the registry symbol `"EPIC"` (blocks
`"EP"` and `"IC"`, ratio `2·4/(6+4)`), no registry symbol is contained
in the text, and with full region confidence the detector still
returns `("", 0)` instead of accepting `"EPIC"`. -/
theorem C8_counterexample :
    detect_coin_name [{ text := "EPXICY", confidence := 1 }] = ("", 0) ∧
    "EPIC" ∈ known_coins ∧
    seqSim "EPXICY" "EPIC" = 8/10 ∧
    findCoinTokens (strUpper "EPXICY") = ["EPXICY"] ∧
    (∀ coin ∈ known_coins, strContainsSub (strUpper "EPXICY") coin = false) := by
  have hnc : ∀ coin ∈ known_coins, strContainsSub (strUpper "EPXICY") coin = false := by
    intro coin hc
    have hall : known_coins.all
        (fun c2 => !(strContainsSub (strUpper "EPXICY") c2)) = true := by decide
    simpa using List.all_eq_true.mp hall coin hc
  have hsim : ∀ region ∈ [({ text := "EPXICY", confidence := 1 } : TextRegion)],
      ∀ tok ∈ findCoinTokens (strUpper region.text), ∀ coin ∈ known_coins,
        seqSim tok coin ≤ 8/10 := by
    intro region hreg tok htok coin hc
    have hregeq : region = { text := "EPXICY", confidence := 1 } := by simpa using hreg
    subst hregeq
    have htoks : findCoinTokens
        (strUpper ({ text := "EPXICY", confidence := 1 } : TextRegion).text) =
        ["EPXICY"] := by decide
    rw [htoks] at htok
    have htok2 : tok = "EPXICY" := by simpa using htok
    subst htok2
    have h6 : "EPXICY".toList.length = 6 := by decide
    refine seqSim_le_threshold _ _ (by rw [h6]; omega) ?_
    have hall : known_coins.all
        (fun c2 => decide (20 * totalMatch "EPXICY".toList c2.toList ≤
          8 * ("EPXICY".toList.length + c2.toList.length))) = true := by decide
    exact of_decide_eq_true (List.all_eq_true.mp hall coin hc)
  refine ⟨?_, by decide, ?_, by decide, hnc⟩
  · refine detect_coin_name_rejects _ ?_ hsim
    intro region hreg
    have hregeq : region = { text := "EPXICY", confidence := 1 } := by simpa using hreg
    subst hregeq
    exact hnc
  · simp [seqSim, totalMatch, totalMatchFuel, findBestBlock, bestAll, bestRow, lcp]
    norm_num

set_option maxRecDepth 4000 in
/-- C8 (amended): for a region with no registry symbol contained in its
uppercased text and a single regex token whose only registry symbol at
a similarity above 0.8 can be `c`, the similarity candidate is accepted
exactly when its ratio is strictly greater than 0.8, and then with
combined confidence `region.confidence * similarity`; when the best
ratio is at most 0.8 — in particular exactly 0.8 — the detector
returns `("", 0)`. -/
theorem C8_similarity_strictly_above (region : TextRegion) (tok c : String)
    (hnc : ∀ coin ∈ known_coins, strContainsSub (strUpper region.text) coin = false)
    (htok : findCoinTokens (strUpper region.text) = [tok])
    (hlen : 2 ≤ tok.length)
    (hc : c ∈ known_coins)
    (hothers : ∀ coin ∈ known_coins, coin ≠ c → seqSim tok coin ≤ 8/10)
    (hpos : 0 < region.confidence) :
    detect_coin_name [region] =
      if 8/10 < seqSim tok c then (c, region.confidence * seqSim tok c)
      else ("", 0) := by
  by_cases hacc : 8/10 < seqSim tok c
  · rw [if_pos hacc, detect_coin_name, List.foldl_cons, List.foldl_nil]
    simp only [detectCoinStep]
    have h1 : known_coins.foldl
        (fun b coin =>
          if strContainsSub (strUpper region.text) coin ∧ region.confidence > b.2 then
            (coin, region.confidence)
          else b) ("", 0) = (("", 0) : String × ℚ) := by
      refine foldl_fixed _ known_coins ("", 0) (fun coin hco => ?_)
      rw [hnc coin hco]
      simp
    rw [h1, htok]
    simp only [List.foldl_cons, List.foldl_nil]
    rw [if_pos hlen]
    obtain ⟨pre, post, hsplit⟩ := List.append_of_mem hc
    have hnd : known_coins.Nodup := by decide
    rw [hsplit, List.nodup_append] at hnd
    have hcpre : c ∉ pre := fun hmem => hnd.2.2 hmem (List.mem_cons_self c post)
    have hcpost : c ∉ post := fun hmem => (List.nodup_cons.mp hnd.2.1).1 hmem
    rw [hsplit]
    exact coinFold_pick tok c region.confidence hpos pre post
      (fun coin hco => hothers coin (by rw [hsplit]; exact List.mem_append_left _ hco)
        (fun he => hcpre (he ▸ hco)))
      (fun coin hco => hothers coin
        (by rw [hsplit]; exact List.mem_append_right _ (List.mem_cons_of_mem c hco))
        (fun he => hcpost (he ▸ hco)))
      hacc
  · rw [if_neg hacc]
    refine detect_coin_name_rejects [region] ?_ ?_
    · intro r hr coin hco
      have hre : r = region := by simpa using hr
      subst hre
      exact hnc coin hco
    · intro r hr t ht coin hco
      have hre : r = region := by simpa using hr
      subst hre
      rw [htok] at ht
      have hte : t = tok := by simpa using ht
      subst hte
      by_cases hec : coin = c
      · subst hec
        exact not_lt.mp hacc
      · exact hothers coin hco hec

set_option maxRecDepth 4000 in
/-- Witness for the amended C8, exercising the acceptance branch: the
region `"EPIIC"` with confidence 9/10 contains no registry symbol, its
one token has similarity 8/9 > 0.8 to `"EPIC"` and at most 0.8 to every
other registry symbol, and the detector accepts `"EPIC"` with combined
confidence 9/10 · 8/9. -/
theorem C8_similarity_strictly_above_witness :
    seqSim "EPIIC" "EPIC" = 8/9 ∧
    detect_coin_name [{ text := "EPIIC", confidence := 9/10 }] =
      ("EPIC", 9/10 * (8/9)) := by
  have hsim89 : seqSim "EPIIC" "EPIC" = 8/9 := by
    simp [seqSim, totalMatch, totalMatchFuel, findBestBlock, bestAll, bestRow, lcp]
    norm_num
  have hnc : ∀ coin ∈ known_coins,
      strContainsSub (strUpper "EPIIC") coin = false := by
    intro coin hcm
    have hall : known_coins.all
        (fun c2 => !(strContainsSub (strUpper "EPIIC") c2)) = true := by decide
    simpa using List.all_eq_true.mp hall coin hcm
  have htok : findCoinTokens (strUpper "EPIIC") = ["EPIIC"] := by decide
  have hothers : ∀ coin ∈ known_coins, coin ≠ "EPIC" →
      seqSim "EPIIC" coin ≤ 8/10 := by
    intro coin hcm hne
    have h5 : "EPIIC".toList.length = 5 := by decide
    refine seqSim_le_threshold _ _ (by rw [h5]; omega) ?_
    have hall : known_coins.all
        (fun c2 => c2 == "EPIC" || decide (20 * totalMatch "EPIIC".toList c2.toList ≤
          8 * ("EPIIC".toList.length + c2.toList.length))) = true := by decide
    have hor := List.all_eq_true.mp hall coin hcm
    simp only [Bool.or_eq_true, decide_eq_true_eq, beq_iff_eq] at hor
    rcases hor with he | hd
    · exact absurd he hne
    · exact hd
  have happ := C8_similarity_strictly_above { text := "EPIIC", confidence := 9/10 }
    "EPIIC" "EPIC" hnc htok (by decide) (by decide) hothers (by norm_num)
  rw [hsim89] at happ
  refine ⟨hsim89, ?_⟩
  rw [happ, if_pos (by norm_num : (8 : ℚ)/10 < 8/9)]
